import Mathlib

/-!
Shallow embedding of the observable-container layer of the repository:
observable maps and strings, observable vectors with their change events,
the undo/redo journal (`RacerVector`), and the remote-backed sequence
bridge (`GoogleRealtimeVector`) over a mock remote collaborative list.

Modelling conventions:
* JSON-like stored values are an arbitrary type `J` with decidable
  equality; `JSONExt.deepEqual` and `JSON.stringify`-comparison are
  modelled by `=` on `J`.
* JavaScript `undefined` is modelled by `none : Option J`.
* The racer model backing a map is a flat association list
  `List (String × J)`; `model.get/set/del` at `path + '.' + key` become
  lookups/updates of the key.
* Signals are modelled by returning the list of emitted change events
  from each operation; a JavaScript `throw` is an `Except.error` result
  paired with the unchanged backing state (the sources throw before any
  mutation).
-/

variable {J : Type} [DecidableEq J]

/-- Lookup in the association-list model store (JS `model.get(path+'.'+key)`);
`none` is JavaScript `undefined`. -/
def storeGet (m : List (String × J)) (key : String) : Option J :=
  match m with
  | [] => none
  | (k, v) :: rest => if k = key then some v else storeGet rest key

/-- Update in the association-list model store (JS `model.set(path+'.'+key, v)`):
replaces the binding for `key` if present, otherwise appends it. -/
def storeSet (m : List (String × J)) (key : String) (v : J) : List (String × J) :=
  match m with
  | [] => [(key, v)]
  | (k, w) :: rest => if k = key then (k, v) :: rest else (k, w) :: storeSet rest key v

/-- The change types of an observable map (`ObservableMap.ChangeType`). -/
inductive MapCType
  | add
  | remove
  | change
deriving DecidableEq, Repr

/-- The changed args emitted by an observable map
(`ObservableMap.IChangedArgs`). -/
structure MapEvent (J : Type) where
  type : MapCType
  key : String
  oldValue : Option J
  newValue : Option J
deriving DecidableEq, Repr

namespace ObservableMap

/-- `ObservableMap.get` from `src/unnamed/part_002`:
`return this._model.get(this._path+'.'+key);`. -/
def get (m : List (String × J)) (key : String) : Option J :=
  storeGet m key

/-- `ObservableMap.has` from `src/unnamed/part_002`:
`return this.get(key) === undefined;`. -/
def has (m : List (String × J)) (key : String) : Bool :=
  get m key = none

/-- `ObservableMap.set` from `src/unnamed/part_002`, parametrised by the
item comparator `cmp` (`options.itemCmp`, defaulting to strict equality).
Returns the resulting store, the emitted events (this class registers no
model listener and never emits its `changed` signal), and either an error
(the `value === undefined` throw) or the returned value.  On the
deep-equal bail the method returns plain `return;`, i.e. `undefined`. -/
def set (cmp : J → J → Bool) (m : List (String × J)) (key : String) (value : Option J) :
    List (String × J) × List (MapEvent J) × Except Unit (Option J) :=
  let oldVal := get m key
  match value with
  | none => (m, [], Except.error ())
  | some v =>
    match oldVal with
    | some o =>
      if cmp o v then (m, [], Except.ok none)
      else (storeSet m key v, [], Except.ok (some o))
    | none => (storeSet m key v, [], Except.ok none)

end ObservableMap

namespace RacerMap

/-- `RacerMap.get` from `src/packages/coreutils/src/racermap.ts`. -/
def get (m : List (String × J)) (key : String) : Option J :=
  storeGet m key

/-- `RacerMap.has` from `src/packages/coreutils/src/racermap.ts`:
`return this.get(key) !== undefined;`. -/
def has (m : List (String × J)) (key : String) : Bool :=
  get m key ≠ none

/-- The event built by the `model.on('change', path+'.*', ...)` listener in
the `RacerMap` constructor.  JavaScript truthiness of a stored value is
abstracted by the parameter `truthy`; `undefined` (`none`) is falsy. -/
def changeEvent (truthy : J → Bool) (key : String) (value previous : Option J) : MapEvent J :=
  let tv := match value with | some v => truthy v | none => false
  let tp := match previous with | some p => truthy p | none => false
  let ctype := if tv && tp then MapCType.change
               else if tv && !tp then MapCType.add
               else MapCType.remove
  ⟨ctype, key, previous, value⟩

/-- `RacerMap.set` from `src/packages/coreutils/src/racermap.ts`.
`JSONExt.deepEqual` is `=` on `J`.  A successful `model.set` fires the
constructor's change listener exactly once, producing one event. -/
def set (truthy : J → Bool) (m : List (String × J)) (key : String) (value : Option J) :
    List (String × J) × List (MapEvent J) × Except Unit (Option J) :=
  let oldVal := get m key
  match value with
  | none => (m, [], Except.error ())
  | some v =>
    match oldVal with
    | some o =>
      if o = v then (m, [], Except.ok none)
      else (storeSet m key v, [changeEvent truthy key (some v) (some o)], Except.ok (some o))
    | none => (storeSet m key v, [changeEvent truthy key (some v) none], Except.ok none)

end RacerMap

/-- The change types of an observable string (`ObservableString.ChangeType`). -/
inductive StrCType
  | insert
  | remove
  | set
deriving DecidableEq, Repr

/-- The changed args emitted by an observable string
(`ObservableString.IChangedArgs`). -/
structure StrEvent where
  type : StrCType
  start : Nat
  stop : Nat
  value : String
deriving DecidableEq, Repr

namespace ObservableString

/-- The `text` setter of `ObservableString` from `src/unnamed/part_002`:
bails when the new value equals the current text, otherwise performs
`model.set`, whose change listener (no `$stringInsert`/`$stringRemove`
passed) emits one `set` event covering the whole new value.
`cur` is the current model value at the path. -/
def setText (cur value : String) : String × List StrEvent :=
  if value.length = cur.length ∧ value = cur then (cur, [])
  else (value, [⟨StrCType.set, 0, value.length, value⟩])

end ObservableString

/-- The change types of an observable vector (`ObservableVector.ChangeType`). -/
inductive VecCType
  | add
  | move
  | remove
  | set
deriving DecidableEq, Repr

/-- The changed args emitted by an observable vector
(`ObservableVector.IChangedArgs`), with payload element type `α`
(`Option J` for the phosphor-era class where `undefined` can appear,
plain `J` for the JSON-backed classes). -/
structure VecEvent (α : Type) where
  type : VecCType
  newIndex : Int
  newValues : List α
  oldIndex : Int
  oldValues : List α
deriving DecidableEq, Repr

/-- JavaScript array indexing `arr[i]`: the element when `0 ≤ i < length`,
`undefined` (`none`) otherwise.  Elements of the phosphor-era vector are
`Option J` so that `undefined` values are representable; `atIdx` flattens
the out-of-range miss into `none` exactly as JavaScript does. -/
def atIdx (l : List (Option J)) (i : Int) : Option J :=
  if i < 0 then none else ((l.get? i.toNat).getD none)

/-- Phosphor `Vector.insert`: the index is clamped to the bounds of the
vector (per the documented contract), then the value is spliced in. -/
def vecInsert (l : List (Option J)) (i : Int) (v : Option J) : List (Option J) :=
  l.insertIdx (min (max i 0) (l.length : Int)).toNat v

/-- Phosphor `Vector.removeAt`: returns the removed value together with the
new contents; an out-of-range index returns `undefined` and leaves the
vector unchanged (per the documented contract). -/
def vecRemoveAt (l : List (Option J)) (i : Int) : Option J × List (Option J) :=
  if 0 ≤ i ∧ i.toNat < l.length then (((l.get? i.toNat).getD none), l.eraseIdx i.toNat)
  else (none, l)

/-- Phosphor `Vector.set`: positional assignment; an out-of-range index is
undefined behavior per the documented contract and is modelled as a no-op. -/
def vecSet (l : List (Option J)) (i : Int) (v : Option J) : List (Option J) :=
  if 0 ≤ i ∧ i.toNat < l.length then l.set i.toNat v else l

/-- Phosphor `indexOf` / the linear search loop of
`GoogleRealtimeVector.remove`: index of the first element equal to
`value`, or `-1` when absent. -/
def vecIndexOf {α : Type} [DecidableEq α] (l : List α) (v : α) : Int :=
  match l with
  | [] => -1
  | x :: rest =>
    if x = v then 0
    else
      let j := vecIndexOf rest v
      if j = -1 then -1 else j + 1

namespace ObservableVector

/-- `ObservableVector.set` (`src/src/common/observablevector.ts`, lines
441-455, un-linked branch): record the old value, assign, emit one `set`
event. -/
def set (l : List (Option J)) (i : Int) (v : Option J) :
    List (Option J) × List (VecEvent (Option J)) :=
  let oldValues := [atIdx l i]
  (vecSet l i v, [⟨VecCType.set, i, [v], i, oldValues⟩])

/-- `ObservableVector.pushBack` (lines 470-484): push, then emit one `add`
event whose `newIndex` is `this.length - 1` evaluated after the push.
Also returns the new length (the return value of the method). -/
def pushBack (l : List (Option J)) (v : Option J) :
    List (Option J) × List (VecEvent (Option J)) × Int :=
  let l1 := l ++ [v]
  (l1, [⟨VecCType.add, (l1.length : Int) - 1, [v], -1, []⟩], (l1.length : Int))

/-- `ObservableVector.popBack` (lines 498-512): pop, then emit one `remove`
event whose `oldIndex` is `this.length` evaluated after the pop. -/
def popBack (l : List (Option J)) :
    List (Option J) × List (VecEvent (Option J)) × Option J :=
  let value := (l.getLast?).getD none
  let l1 := l.dropLast
  (l1, [⟨VecCType.remove, -1, [], (l1.length : Int), [value]⟩], value)

/-- `ObservableVector.insert` (lines 535-549): clamped splice, then emit one
`add` event carrying the raw requested index. -/
def insert (l : List (Option J)) (i : Int) (v : Option J) :
    List (Option J) × List (VecEvent (Option J)) × Int :=
  (vecInsert l i v, [⟨VecCType.add, i, [v], -1, []⟩], (l.length : Int) + 1)

/-- `ObservableVector.removeAt` (lines 595-609): remove, then emit one
`remove` event carrying the raw index — the emission is unconditional,
even when the index was out of range. -/
def removeAt (l : List (Option J)) (i : Int) :
    List (Option J) × List (VecEvent (Option J)) × Option J :=
  let r := vecRemoveAt l i
  (r.2, [⟨VecCType.remove, -1, [], i, [r.1]⟩], r.1)

/-- `ObservableVector.remove` (lines 568-576): find the first `===` match,
then call `removeAt` with the found index (which is `-1` when the value is
absent); returns the index. -/
def remove (l : List (Option J)) (v : Option J) :
    List (Option J) × List (VecEvent (Option J)) × Int :=
  let i := vecIndexOf l v
  let r := removeAt l i
  (r.1, r.2.1, i)

/-- `ObservableVector.clear` (lines 620-634): snapshot the contents, clear,
then emit one `remove` event with `oldIndex = 0` and `newIndex = 0`. -/
def clear (l : List (Option J)) : List (Option J) × List (VecEvent (Option J)) :=
  ([], [⟨VecCType.remove, 0, [], 0, l⟩])

/-- `ObservableVector.move` (lines 653-673): read the value at `fromIndex`,
remove it, re-insert it at `toIndex - 1` when `toIndex < fromIndex` and at
`toIndex` otherwise, then emit one `move` event claiming the value moved
from `fromIndex` to `toIndex`. -/
def move (l : List (Option J)) (fromIndex toIndex : Int) :
    List (Option J) × List (VecEvent (Option J)) :=
  let value := atIdx l fromIndex
  let l1 := (vecRemoveAt l fromIndex).2
  let l2 := if toIndex < fromIndex then vecInsert l1 (toIndex - 1) value
            else vecInsert l1 toIndex value
  let arr := [value]
  (l2, [⟨VecCType.move, toIndex, arr, fromIndex, arr⟩])

/-- `ObservableVector.pushAll` (lines 688-704): push each value, then emit
one `add` event whose `newIndex` is the length before the pushes. -/
def pushAll (l : List (Option J)) (values : List (Option J)) :
    List (Option J) × List (VecEvent (Option J)) × Int :=
  let newIndex := (l.length : Int)
  let l1 := l ++ values
  (l1, [⟨VecCType.add, newIndex, values, -1, []⟩], (l1.length : Int))

/-- The loop of `insertAll`: `each(newValues, value => super.insert(index++, value))`. -/
def insertAllLoop (l : List (Option J)) (i : Int) :
    List (Option J) → List (Option J)
  | [] => l
  | v :: rest => insertAllLoop (vecInsert l i v) (i + 1) rest

/-- `ObservableVector.insertAll` (lines 727-743): sequential clamped inserts
at an incrementing index, then one `add` event at the starting index. -/
def insertAll (l : List (Option J)) (i : Int) (values : List (Option J)) :
    List (Option J) × List (VecEvent (Option J)) × Int :=
  let l1 := insertAllLoop l i values
  (l1, [⟨VecCType.add, i, values, -1, []⟩], (l1.length : Int))

/-- The loop of `removeRange`: `for (i = startIndex; i < endIndex; i++)
oldValues.push(super.removeAt(startIndex))`; the iteration count is the
number of integers in `[startIndex, endIndex)`. -/
def removeRangeLoop (l : List (Option J)) (s : Int) :
    Nat → List (Option J) × List (Option J)
  | 0 => ([], l)
  | k + 1 =>
    let r := vecRemoveAt l s
    let rest := removeRangeLoop r.2 s k
    (r.1 :: rest.1, rest.2)

/-- `ObservableVector.removeRange` (lines 763-780): repeated `removeAt` at
`startIndex`, then one `remove` event carrying the collected old values. -/
def removeRange (l : List (Option J)) (s e : Int) :
    List (Option J) × List (VecEvent (Option J)) × Int :=
  let r := removeRangeLoop l s (e - s).toNat
  (r.2, [⟨VecCType.remove, -1, [], s, r.1⟩], (r.2.length : Int))

end ObservableVector

/-- The mutating operations of `ObservableVector`, for uniform statements
about the events they emit. -/
inductive OVOp (J : Type) where
  | set (i : Int) (v : Option J)
  | pushBack (v : Option J)
  | popBack
  | insert (i : Int) (v : Option J)
  | remove (v : Option J)
  | removeAt (i : Int)
  | clear
  | move (f t : Int)
  | pushAll (vs : List (Option J))
  | insertAll (i : Int) (vs : List (Option J))
  | removeRange (s e : Int)
deriving DecidableEq

/-- Apply an `ObservableVector` mutator, keeping the new contents and the
emitted events. -/
def applyOV (l : List (Option J)) : OVOp J → List (Option J) × List (VecEvent (Option J))
  | OVOp.set i v => ObservableVector.set l i v
  | OVOp.pushBack v => let r := ObservableVector.pushBack l v; (r.1, r.2.1)
  | OVOp.popBack => let r := ObservableVector.popBack l; (r.1, r.2.1)
  | OVOp.insert i v => let r := ObservableVector.insert l i v; (r.1, r.2.1)
  | OVOp.remove v => let r := ObservableVector.remove l v; (r.1, r.2.1)
  | OVOp.removeAt i => let r := ObservableVector.removeAt l i; (r.1, r.2.1)
  | OVOp.clear => ObservableVector.clear l
  | OVOp.move f t => ObservableVector.move l f t
  | OVOp.pushAll vs => let r := ObservableVector.pushAll l vs; (r.1, r.2.1)
  | OVOp.insertAll i vs => let r := ObservableVector.insertAll l i vs; (r.1, r.2.1)
  | OVOp.removeRange s e => let r := ObservableVector.removeRange l s e; (r.1, r.2.1)

/-- Validity of an `ObservableVector` mutator call: indices integral and in
range (out-of-range positional operations are declared undefined behavior
by the source), the removed value present, the popped vector non-empty. -/
def OVValid (l : List (Option J)) : OVOp J → Prop
  | OVOp.set i _ => 0 ≤ i ∧ i.toNat < l.length
  | OVOp.pushBack _ => True
  | OVOp.popBack => l ≠ []
  | OVOp.insert i _ => 0 ≤ i ∧ i.toNat ≤ l.length
  | OVOp.remove v => v ∈ l
  | OVOp.removeAt i => 0 ≤ i ∧ i.toNat < l.length
  | OVOp.clear => True
  | OVOp.move f t => (0 ≤ f ∧ f.toNat < l.length) ∧ (0 ≤ t ∧ t.toNat < l.length)
  | OVOp.pushAll _ => True
  | OVOp.insertAll i _ => 0 ≤ i ∧ i.toNat ≤ l.length
  | OVOp.removeRange s e => 0 ≤ s ∧ s ≤ e ∧ e.toNat ≤ l.length

instance (l : List (Option J)) (op : OVOp J) : Decidable (OVValid l op) := by
  cases op <;> simp only [OVValid] <;> infer_instance

/-- Operations a bridge submits to the remote collaborative list
(`gapi.drive.realtime.CollaborativeList`). -/
inductive RemoteOp (J : Type) where
  | push (v : J)
  | insert (i : Int) (v : J)
  | remove (i : Int)
  | set (i : Int) (v : J)
  | clear
deriving DecidableEq, Repr

/-- Events fired by the remote collaborative list. -/
inductive RemoteEvent (J : Type) where
  | valuesAdded (index : Int) (values : List J)
  | valuesRemoved (index : Int) (values : List J)
  | valuesSet (index : Int) (oldValues newValues : List J)
deriving DecidableEq, Repr

/-- Mock remote collaborative list: applying an operation yields the new
remote contents and the events it fires (one per effective operation;
out-of-range operations throw in the real API and fire nothing). -/
def applyRemoteOp (l : List J) : RemoteOp J → List J × List (RemoteEvent J)
  | RemoteOp.push v => (l ++ [v], [RemoteEvent.valuesAdded (l.length : Int) [v]])
  | RemoteOp.insert i v =>
    if 0 ≤ i ∧ i.toNat ≤ l.length then
      (l.insertIdx i.toNat v, [RemoteEvent.valuesAdded i [v]])
    else (l, [])
  | RemoteOp.remove i =>
    if h : 0 ≤ i ∧ i.toNat < l.length then
      (l.eraseIdx i.toNat, [RemoteEvent.valuesRemoved i [l.get ⟨i.toNat, h.2⟩]])
    else (l, [])
  | RemoteOp.set i v =>
    if h : 0 ≤ i ∧ i.toNat < l.length then
      (l.set i.toNat v, [RemoteEvent.valuesSet i [l.get ⟨i.toNat, h.2⟩] [v]])
    else (l, [])
  | RemoteOp.clear =>
    match l with
    | [] => ([], [])
    | _ :: _ => ([], [RemoteEvent.valuesRemoved 0 l])

namespace GoogleRealtimeVector

/-- The event listeners registered in the `GoogleRealtimeVector`
constructor (`src/src/realtime/datastructures.ts`, lines 167-201): each
inbound remote event is translated (through the caller-supplied `factory`,
i.e. `_fromJSONArray`) into exactly one local change event, and no
operation is submitted back to the remote object. -/
def handleRemoteEvent {T J : Type} (factory : J → T) :
    RemoteEvent J → VecEvent T
  | RemoteEvent.valuesAdded index values =>
    ⟨VecCType.add, index, values.map factory, -1, []⟩
  | RemoteEvent.valuesRemoved index values =>
    ⟨VecCType.remove, -1, [], index, values.map factory⟩
  | RemoteEvent.valuesSet index oldValues newValues =>
    ⟨VecCType.set, index, newValues.map factory, index, oldValues.map factory⟩

/-- The constructor's listeners as a reaction map: zero re-submitted
operations and exactly one local change event per inbound remote event. -/
def onRemoteEvent {T J : Type} (factory : J → T) (e : RemoteEvent J) :
    List (RemoteOp J) × List (VecEvent T) :=
  ([], [handleRemoteEvent factory e])

/-- Submit a list of operations to the mock remote object, collecting the
local change events produced by the constructor's listeners as the mock
echoes each operation back. -/
def submitOps {T J : Type} (factory : J → T) (l : List J) (ops : List (RemoteOp J)) :
    List J × List (VecEvent T) :=
  match ops with
  | [] => (l, [])
  | op :: rest =>
    let r := applyRemoteOp l op
    let r2 := submitOps factory r.1 rest
    (r2.1, r.2.map (handleRemoteEvent factory) ++ r2.2)

/-- `GoogleRealtimeVector.pushBack` (lines 389-391): one `push` submitted
to the remote list.  The bridge state is the remote contents; the result
also carries the submitted operations and the local change events caused. -/
def pushBack {T J : Type} (toJSON : T → J) (factory : J → T) (l : List J) (v : T) :
    List J × List (RemoteOp J) × List (VecEvent T) :=
  let ops := [RemoteOp.push (toJSON v)]
  let r := submitOps factory l ops
  (r.1, ops, r.2)

/-- `GoogleRealtimeVector.set` (lines 371-374): reads the old value, then
submits one `set` to the remote list. -/
def set {T J : Type} (toJSON : T → J) (factory : J → T) (l : List J) (i : Int) (v : T) :
    List J × List (RemoteOp J) × List (VecEvent T) :=
  let ops := [RemoteOp.set i (toJSON v)]
  let r := submitOps factory l ops
  (r.1, ops, r.2)

/-- `GoogleRealtimeVector.popBack` (lines 405-409): reads the last value,
then submits one `remove` at `length - 1`. -/
def popBack {T J : Type} (factory : J → T) (l : List J) :
    List J × List (RemoteOp J) × List (VecEvent T) :=
  let ops := [RemoteOp.remove ((l.length : Int) - 1)]
  let r := submitOps factory l ops
  (r.1, ops, r.2)

/-- `GoogleRealtimeVector.insert` (lines 432-435): one `insert` submitted. -/
def insert {T J : Type} (toJSON : T → J) (factory : J → T) (l : List J) (i : Int) (v : T) :
    List J × List (RemoteOp J) × List (VecEvent T) :=
  let ops := [RemoteOp.insert i (toJSON v)]
  let r := submitOps factory l ops
  (r.1, ops, r.2)

/-- `GoogleRealtimeVector.removeAt` (lines 485-489): reads the value, then
submits one `remove`. -/
def removeAt {T J : Type} (factory : J → T) (l : List J) (i : Int) :
    List J × List (RemoteOp J) × List (VecEvent T) :=
  let ops := [RemoteOp.remove i]
  let r := submitOps factory l ops
  (r.1, ops, r.2)

/-- `GoogleRealtimeVector.remove` (lines 454-466): linear search comparing
`JSON.stringify` of the serialized value (modelled by equality on `J`);
submits one `remove` when found, nothing when absent. -/
def remove {T J : Type} [DecidableEq J] (toJSON : T → J) (factory : J → T)
    (l : List J) (v : T) :
    List J × List (RemoteOp J) × List (VecEvent T) × Int :=
  let i := vecIndexOf l (toJSON v)
  if i ≠ -1 then
    let r := removeAt factory l i
    (r.1, r.2.1, r.2.2, i)
  else (l, [], [], -1)

/-- `GoogleRealtimeVector.clear` (lines 500-503): reads the old values,
then submits one `clear`. -/
def clear {T J : Type} (factory : J → T) (l : List J) :
    List J × List (RemoteOp J) × List (VecEvent T) :=
  let ops := [RemoteOp.clear]
  let r := submitOps factory l ops
  (r.1, ops, r.2)

/-- `GoogleRealtimeVector.move` (lines 522-530): reads the value at
`fromIndex`, then calls `this.removeAt(fromIndex)` followed by
`this.insert(toIndex - 1 | toIndex, value)` — two separate operations
submitted to the remote object, each echoed as its own local event.
An out-of-range `fromIndex` read throws in the real API (modelled as a
no-op). -/
def move {T J : Type} (toJSON : T → J) (factory : J → T) (l : List J) (f t : Int) :
    List J × List (RemoteOp J) × List (VecEvent T) :=
  if h : 0 ≤ f ∧ f.toNat < l.length then
    let value := factory (l.get ⟨f.toNat, h.2⟩)
    let r1 := removeAt factory l f
    let r2 := if t < f then insert toJSON factory r1.1 (t - 1) value
              else insert toJSON factory r1.1 t value
    (r2.1, r1.2.1 ++ r2.2.1, r1.2.2 ++ r2.2.2)
  else (l, [], [])

/-- `GoogleRealtimeVector.canUndo` (lines 244-246): always `false`. -/
def canUndo : Bool := false

/-- `GoogleRealtimeVector.canRedo` (lines 237-239): always `false`. -/
def canRedo : Bool := false

/-- `GoogleRealtimeVector.undo` (lines 268-270): a no-op — no state change,
no operation submitted, no event emitted. -/
def undo {T J : Type} (l : List J) : List J × List (RemoteOp J) × List (VecEvent T) :=
  (l, [], [])

/-- `GoogleRealtimeVector.redo` (lines 275-277): a no-op. -/
def redo {T J : Type} (l : List J) : List J × List (RemoteOp J) × List (VecEvent T) :=
  (l, [], [])

/-- `GoogleRealtimeVector.clearUndo` (lines 282-284): a no-op. -/
def clearUndo {T J : Type} (l : List J) : List J × List (RemoteOp J) × List (VecEvent T) :=
  (l, [], [])

/-- `GoogleRealtimeVector.beginCompoundOperation` (lines 254-256): a no-op
for any value of the optional `isUndoAble` argument. -/
def beginCompoundOperation {T J : Type} (_isUndoAble : Option Bool) (l : List J) :
    List J × List (RemoteOp J) × List (VecEvent T) :=
  (l, [], [])

/-- `GoogleRealtimeVector.endCompoundOperation` (lines 261-263): a no-op. -/
def endCompoundOperation {T J : Type} (l : List J) :
    List J × List (RemoteOp J) × List (VecEvent T) :=
  (l, [], [])

end GoogleRealtimeVector

/-- The state of a `RacerVector` (`src/unnamed/part_003`): the racer
model's array at the vector's path, the `_length` mirror maintained by the
event listeners, and the undo-journal fields `_stack`, `_index`,
`_inCompound`, `_isUndoable`, `_madeCompoundChange`.  Disposal is not
modelled. -/
structure RVState (J : Type) where
  list : List J
  len : Nat
  stack : List (List (VecEvent J))
  index : Int
  inCompound : Bool
  isUndoable : Bool
  madeCompoundChange : Bool
deriving DecidableEq, Repr

namespace RacerVector

/-- The state right after the constructor ran: `model.set(path, [])`,
`_length = 0`, empty stack, `_index = -1`, default flags. -/
def fresh (J : Type) : RVState J :=
  ⟨[], 0, [], -1, false, true, false⟩

/-- `RacerVector._onVectorChanged` (lines 551-573): record a change event
on the undo stack.  Skipped while `_isUndoable` is false (replay); outside
a compound operation (or before its first change) the stack is truncated
after the cursor; the event is appended to the pending batch at
`_index + 1` when one exists, otherwise pushed as a new batch; outside a
compound operation the cursor advances, inside one only
`_madeCompoundChange` is set. -/
def onVectorChanged (s : RVState J) (c : VecEvent J) : RVState J :=
  if ¬ s.isUndoable then s
  else
    let stack1 := if ¬ s.inCompound ∨ ¬ s.madeCompoundChange
                  then s.stack.take (s.index + 1).toNat else s.stack
    let pos := (s.index + 1).toNat
    let stack2 :=
      if h : pos < stack1.length then stack1.set pos (stack1.get ⟨pos, h⟩ ++ [c])
      else stack1 ++ [[c]]
    if ¬ s.inCompound then { s with stack := stack2, index := s.index + 1 }
    else { s with stack := stack2, madeCompoundChange := true }

/-- The constructor's `model.on('insert', ...)` listener (lines 51-61):
bump `_length`, emit an `add` event, which feeds `_onVectorChanged`. -/
def onInsertEvent (s : RVState J) (index : Int) (values : List J) : RVState J :=
  onVectorChanged { s with len := s.len + values.length }
    ⟨VecCType.add, index, values, -1, []⟩

/-- The constructor's `model.on('remove', ...)` listener (lines 62-72). -/
def onRemoveEvent (s : RVState J) (index : Int) (removed : List J) : RVState J :=
  onVectorChanged { s with len := s.len - removed.length }
    ⟨VecCType.remove, -1, [], index, removed⟩

/-- The constructor's `model.on('change', ...)` listener (lines 40-50). -/
def onChangeEvent (s : RVState J) (index : Int) (value previous : J) : RVState J :=
  onVectorChanged s ⟨VecCType.set, index, [value], index, [previous]⟩

/-- The constructor's `model.on('move', ...)` listener (lines 73-86); it
reads the moved value back from the model at the destination index. -/
def onMoveEvent (s : RVState J) (f t : Int) (value : J) : RVState J :=
  onVectorChanged s ⟨VecCType.move, t, [value], f, [value]⟩

/-- `RacerVector.pushBack` (lines 296-298): `model.push` appends and fires
one racer `insert` event at the old length. -/
def pushBack (s : RVState J) (v : J) : RVState J :=
  onInsertEvent { s with list := s.list ++ [v] } (s.list.length : Int) [v]

/-- `RacerVector.popBack` (lines 312-314): `model.pop` removes the last
element and fires one racer `remove` event at the new length; popping an
empty list fires nothing. -/
def popBack (s : RVState J) : RVState J :=
  match s.list.getLast? with
  | none => s
  | some v => onRemoveEvent { s with list := s.list.dropLast } ((s.list.length : Int) - 1) [v]

/-- `RacerVector.insert` (lines 337-339): `model.insert(path, index, [value])`.
An out-of-range index is undefined behavior (racer throws) and is modelled
as a no-op. -/
def insert (s : RVState J) (i : Int) (v : J) : RVState J :=
  if 0 ≤ i ∧ i.toNat ≤ s.list.length then
    onInsertEvent { s with list := s.list.insertIdx i.toNat v } i [v]
  else s

/-- `RacerVector.removeAt` (lines 378-381): `model.remove(path, index)`
removes one element (racer's default `howMany` is 1) and fires one racer
`remove` event carrying it.  An out-of-range index removes nothing and
fires nothing. -/
def removeAt (s : RVState J) (i : Int) : RVState J :=
  if h : 0 ≤ i ∧ i.toNat < s.list.length then
    onRemoveEvent { s with list := s.list.eraseIdx i.toNat } i [s.list.get ⟨i.toNat, h.2⟩]
  else s

/-- `RacerVector.set` (lines 271-281): read the old value, bail when
`JSONExt.deepEqual` (here `=`) holds, else `model.set` fires one racer
`change` event.  An out-of-range index is undefined behavior, modelled as
a no-op. -/
def set (s : RVState J) (i : Int) (v : J) : RVState J :=
  if h : 0 ≤ i ∧ i.toNat < s.list.length then
    let oldValue := s.list.get ⟨i.toNat, h.2⟩
    if oldValue = v then s
    else onChangeEvent { s with list := s.list.set i.toNat v } i v oldValue
  else s

/-- `RacerVector.move` (lines 413-418): bail when `length ≤ 1` (the
`_length` field) or `fromIndex === toIndex`, else `model.move(path, from,
to, 1)` splices the element out at `from` and back in at `to`, firing one
racer `move` event; the listener reads the moved value at the destination.
Out-of-range indices are undefined behavior, modelled as a no-op. -/
def move (s : RVState J) (f t : Int) : RVState J :=
  if s.len ≤ 1 ∨ f = t then s
  else if h : (0 ≤ f ∧ f.toNat < s.list.length) ∧ (0 ≤ t ∧ t.toNat < s.list.length) then
    let v := s.list.get ⟨f.toNat, h.1.2⟩
    let l1 := (s.list.eraseIdx f.toNat).insertIdx t.toNat v
    match l1.get? t.toNat with
    | some w => onMoveEvent { s with list := l1 } f t w
    | none => s
  else s

/-- `RacerVector.canUndo` (lines 197-199): `this._index >= 0`. -/
def canUndo (s : RVState J) : Bool :=
  decide (0 ≤ s.index)

/-- `RacerVector.canRedo` (lines 190-192): `this._index < this._stack.length - 1`. -/
def canRedo (s : RVState J) : Bool :=
  decide (s.index < (s.stack.length : Int) - 1)

/-- `RacerVector.beginCompoundOperation` (lines 491-495):
`_inCompound = true`, `_isUndoable = (isUndoAble !== false)`,
`_madeCompoundChange = false`. -/
def beginCompoundOperation (s : RVState J) (isUndoAble : Bool) : RVState J :=
  { s with inCompound := true, isUndoable := isUndoAble, madeCompoundChange := false }

/-- `RacerVector.endCompoundOperation` (lines 500-506): leave compound
mode, restore `_isUndoable`, and advance the cursor exactly when a change
occurred during the transaction. -/
def endCompoundOperation (s : RVState J) : RVState J :=
  let s1 := { s with inCompound := false, isUndoable := true }
  if s.madeCompoundChange then { s1 with index := s1.index + 1 } else s1

/-- `RacerVector._undoChange` (lines 578-604): replay the inverse of one
recorded change through the public mutators (with `_isUndoable` false in
the caller, so nothing is re-recorded). -/
def undoChange (s : RVState J) (c : VecEvent J) : RVState J :=
  match c.type with
  | VecCType.add => c.newValues.foldl (fun st _ => removeAt st c.newIndex) s
  | VecCType.set =>
    (c.oldValues.foldl (fun (p : RVState J × Int) v => (set p.1 p.2 v, p.2 + 1))
      (s, c.oldIndex)).1
  | VecCType.remove =>
    (c.oldValues.foldl (fun (p : RVState J × Int) v => (insert p.1 p.2 v, p.2 + 1))
      (s, c.oldIndex)).1
  | VecCType.move => move s c.newIndex c.oldIndex

/-- `RacerVector._redoChange` (lines 609-635): replay one recorded change
forward.  The `set` case executes `this.set(change.newIndex++, value)`,
mutating the stored event's `newIndex`; the possibly-updated event is
returned alongside the new state. -/
def redoChange (s : RVState J) (c : VecEvent J) : RVState J × VecEvent J :=
  match c.type with
  | VecCType.add =>
    ((c.newValues.foldl (fun (p : RVState J × Int) v => (insert p.1 p.2 v, p.2 + 1))
      (s, c.newIndex)).1, c)
  | VecCType.set =>
    let r := c.newValues.foldl (fun (p : RVState J × Int) v => (set p.1 p.2 v, p.2 + 1))
      (s, c.newIndex)
    (r.1, { c with newIndex := r.2 })
  | VecCType.remove =>
    (c.oldValues.foldl (fun st _ => removeAt st c.oldIndex) s, c)
  | VecCType.move => (move s c.oldIndex c.newIndex, c)

/-- `RacerVector.undo` (lines 511-522): bail unless `canUndo`; reverse the
batch at the cursor in place (`changes.reverse()` mutates the stored
array), replay each inverse with `_isUndoable` false, restore the flag,
decrement the cursor. -/
def undo (s : RVState J) : RVState J :=
  if ¬ 0 ≤ s.index then s
  else
    match s.stack.get? s.index.toNat with
    | none => s
    | some changes =>
      let rev := changes.reverse
      let s1 := { s with stack := s.stack.set s.index.toNat rev, isUndoable := false }
      let s2 := rev.foldl undoChange s1
      { s2 with isUndoable := true, index := s2.index - 1 }

/-- `RacerVector.redo` (lines 527-538): bail unless `canRedo`; increment
the cursor, replay the batch there forward with `_isUndoable` false
(storing back any events mutated by `_redoChange`), restore the flag. -/
def redo (s : RVState J) : RVState J :=
  if ¬ s.index < (s.stack.length : Int) - 1 then s
  else
    let s0 := { s with index := s.index + 1 }
    match s0.stack.get? s0.index.toNat with
    | none => s0
    | some changes =>
      let s1 := { s0 with isUndoable := false }
      let r := changes.foldl
        (fun (p : RVState J × List (VecEvent J)) c =>
          let q := redoChange p.1 c
          (q.1, p.2 ++ [q.2])) (s1, [])
      { r.1 with stack := r.1.stack.set s0.index.toNat r.2, isUndoable := true }

/-- `RacerVector.clearUndo` (lines 543-546). -/
def clearUndo (s : RVState J) : RVState J :=
  { s with index := -1, stack := [] }

end RacerVector

/-- Single undoable mutations on a `RacerVector`, with in-range `Nat`
indices (callers pass integral in-range indices; anything else is
undefined behavior per the source's documented contracts). -/
inductive RMut (J : Type) where
  | push (v : J)
  | pop
  | insert (i : Nat) (v : J)
  | removeAt (i : Nat)
  | set (i : Nat) (v : J)
  | move (f t : Nat)
deriving DecidableEq, Repr

/-- Dispatch a single mutation to the corresponding `RacerVector` method. -/
def applyRMut (s : RVState J) : RMut J → RVState J
  | RMut.push v => RacerVector.pushBack s v
  | RMut.pop => RacerVector.popBack s
  | RMut.insert i v => RacerVector.insert s (i : Int) v
  | RMut.removeAt i => RacerVector.removeAt s (i : Int)
  | RMut.set i v => RacerVector.set s (i : Int) v
  | RMut.move f t => RacerVector.move s (f : Int) (t : Int)

/-- The pure contents transformation performed by a valid mutation. -/
def rmutStep (l : List J) : RMut J → List J
  | RMut.push v => l ++ [v]
  | RMut.pop => l.dropLast
  | RMut.insert i v => l.insertIdx i v
  | RMut.removeAt i => l.eraseIdx i
  | RMut.set i v => l.set i v
  | RMut.move f t =>
    match l.get? f with
    | some v => (l.eraseIdx f).insertIdx t v
    | none => l

/-- Validity of a single mutation against contents `l`: in-range indices,
non-empty pop, an effective `set` (the method bails without an event when
the new value is deep-equal to the old one), and an effective `move`. -/
def RMutValid (l : List J) : RMut J → Prop
  | RMut.push _ => True
  | RMut.pop => l ≠ []
  | RMut.insert i _ => i ≤ l.length
  | RMut.removeAt i => i < l.length
  | RMut.set i v => i < l.length ∧ l.get? i ≠ some v
  | RMut.move f t => f < l.length ∧ t < l.length ∧ f ≠ t

instance (l : List J) (m : RMut J) : Decidable (RMutValid l m) := by
  cases m <;> simp only [RMutValid] <;> infer_instance

/-- The change event recorded on the undo stack by a valid mutation. -/
def rmutEvt (l : List J) : RMut J → VecEvent J
  | RMut.push v => ⟨VecCType.add, (l.length : Int), [v], -1, []⟩
  | RMut.pop => ⟨VecCType.remove, -1, [], (l.length : Int) - 1, (l.getLast?).toList⟩
  | RMut.insert i v => ⟨VecCType.add, (i : Int), [v], -1, []⟩
  | RMut.removeAt i => ⟨VecCType.remove, -1, [], (i : Int), (l.get? i).toList⟩
  | RMut.set i v => ⟨VecCType.set, (i : Int), [v], (i : Int), (l.get? i).toList⟩
  | RMut.move f t =>
    ⟨VecCType.move, (t : Int), ((rmutStep l (RMut.move f t)).get? t).toList,
      (f : Int), ((rmutStep l (RMut.move f t)).get? t).toList⟩

/-- Apply a sequence of mutations. -/
def applyRMuts (s : RVState J) (ms : List (RMut J)) : RVState J :=
  ms.foldl applyRMut s

/-- Step the pure contents through a sequence of mutations. -/
def rmutSteps (l : List J) (ms : List (RMut J)) : List J :=
  ms.foldl rmutStep l

/-- Sequential validity of a sequence of mutations. -/
def RMutsValid (l : List J) : List (RMut J) → Prop
  | [] => True
  | m :: ms => RMutValid l m ∧ RMutsValid (rmutStep l m) ms

instance (l : List J) (ms : List (RMut J)) : Decidable (RMutsValid l ms) := by
  induction ms generalizing l with
  | nil => exact isTrue trivial
  | cons m ms ih => exact @instDecidableAnd _ _ inferInstance (ih (rmutStep l m))

/-- The per-mutation events recorded along a run. -/
def rmutEvts (l : List J) : List (RMut J) → List (VecEvent J)
  | [] => []
  | m :: ms => rmutEvt l m :: rmutEvts (rmutStep l m) ms

/-!
## Helper lemmas
-/

theorem list_insertIdx_eq_take_cons_drop {α : Type} (l : List α) (i : Nat) (a : α)
    (h : i ≤ l.length) : l.insertIdx i a = l.take i ++ a :: l.drop i := by
  induction l generalizing i with
  | nil =>
    have : i = 0 := Nat.le_zero.mp h
    subst this
    rfl
  | cons x xs ih =>
    cases i with
    | zero => rfl
    | succ j =>
      simp only [List.insertIdx_succ_cons, List.take_succ_cons, List.drop_succ_cons,
        List.cons_append]
      rw [ih j (Nat.le_of_succ_le_succ h)]

theorem list_set_self {α : Type} (l : List α) (n : Nat) (h : n < l.length) :
    l.set n (l.get ⟨n, h⟩) = l := by
  apply List.ext_getElem
  · simp
  · intro i h1 h2
    rw [List.getElem_set]
    split
    · subst i
      rfl
    · rfl

theorem list_drop_length_sub_one {α : Type} (l : List α) (h : l ≠ []) :
    l.drop (l.length - 1) = (l.getLast?).toList := by
  have hx : l.getLast? = some (l.getLast h) := List.getLast?_eq_getLast_of_ne_nil h
  have h2 : l.dropLast ++ [l.getLast h] = l := List.dropLast_append_getLast h
  calc l.drop (l.length - 1)
      = (l.dropLast ++ [l.getLast h]).drop (l.length - 1) := by rw [h2]
    _ = (l.dropLast ++ [l.getLast h]).drop l.dropLast.length := by
        rw [List.length_dropLast]
    _ = [l.getLast h] := List.drop_left _ _
    _ = (l.getLast?).toList := by rw [hx]; rfl

theorem vecIndexOf_of_not_mem {α : Type} [DecidableEq α] (l : List α) (v : α)
    (h : v ∉ l) : vecIndexOf l v = -1 := by
  induction l with
  | nil => rfl
  | cons x xs ih =>
    have hxv : ¬ x = v := fun he => h (he ▸ List.mem_cons_self x xs)
    have hv : v ∉ xs := fun hm => h (List.mem_cons_of_mem x hm)
    simp only [vecIndexOf, if_neg hxv, ih hv]
    rfl

theorem vecIndexOf_bounds_of_mem {α : Type} [DecidableEq α] (l : List α) (v : α)
    (h : v ∈ l) : 0 ≤ vecIndexOf l v ∧ (vecIndexOf l v).toNat < l.length := by
  induction l with
  | nil => cases h
  | cons x xs ih =>
    by_cases hxv : x = v
    · simp [vecIndexOf, hxv]
    · have hv : v ∈ xs := by
        cases h with
        | head => exact absurd rfl hxv
        | tail _ hm => exact hm
      obtain ⟨h1, h2⟩ := ih hv
      have hne : vecIndexOf xs v ≠ -1 := by omega
      simp only [vecIndexOf, if_neg hxv, if_neg hne, List.length_cons]
      omega

/-!
## Claim theorems
-/

/-- C5: setting a value equal to the current value is a silent no-op.
`ObservableMap.set` with a value the item comparator considers equal to
the existing one, `RacerMap.set` with a value deep-equal to the existing
one, and assigning `ObservableString.text` a string identical to the
current text all return without mutating the backing store and without
emitting any change event. -/
theorem c5_noop_equal_set {J : Type} [DecidableEq J]
    (cmp : J → J → Bool) (truthy : J → Bool)
    (m m2 : List (String × J)) (key key2 : String) (v o v2 : J) (txt : String)
    (h1 : ObservableMap.get m key = some o) (h2 : cmp o v = true)
    (h3 : RacerMap.get m2 key2 = some v2) :
    ObservableMap.set cmp m key (some v) = (m, [], Except.ok none) ∧
    RacerMap.set truthy m2 key2 (some v2) = (m2, [], Except.ok none) ∧
    ObservableString.setText txt txt = (txt, []) := by
  refine ⟨?_, ?_, ?_⟩
  · simp only [ObservableMap.set, h1, h2, if_true]
  · simp [RacerMap.set, h3]
  · simp [ObservableString.setText]

/-- Witness for `c5_noop_equal_set` at concrete inputs. -/
theorem c5_noop_equal_set_witness :
    (ObservableMap.get [("a", 1)] "a" = some 1 ∧ (fun x y : Nat => x == y) 1 1 = true ∧
      RacerMap.get [("b", 2)] "b" = some 2) ∧
    (ObservableMap.set (fun x y : Nat => x == y) [("a", 1)] "a" (some 1) =
        ([("a", 1)], [], Except.ok none) ∧
      RacerMap.set (fun _ => true) [("b", 2)] "b" (some 2) =
        ([("b", 2)], [], Except.ok none) ∧
      ObservableString.setText "x" "x" = ("x", [])) :=
  ⟨⟨by decide, by decide, by decide⟩,
    c5_noop_equal_set (fun x y : Nat => x == y) (fun _ => true) [("a", 1)] [("b", 2)]
      "a" "b" 1 1 2 "x" (by decide) (by decide) (by decide)⟩

/-- C8: `set(key, undefined)` fails fast on both observable map
implementations: it returns the throw without mutating the backing store
and never stores an undefined value. -/
theorem c8_set_undefined_throws {J : Type} [DecidableEq J]
    (cmp : J → J → Bool) (truthy : J → Bool) (m : List (String × J)) (key : String) :
    ObservableMap.set cmp m key none = (m, [], Except.error ()) ∧
    RacerMap.set truthy m key none = (m, [], Except.error ()) :=
  ⟨rfl, rfl⟩

/-- C10: the claim is what `ObservableMap.has` is documented to do, but the
code returns `this.get(key) === undefined` — the inverted test.  At the
failing input, a map holding key `a` reports `has "a" = false` even though
`get "a"` is defined, and an absent key reports `has = true`. -/
theorem c10_has_inverted :
    ObservableMap.has (storeSet ([] : List (String × Nat)) "a" 1) "a" = false ∧
    ObservableMap.get (storeSet ([] : List (String × Nat)) "a" 1) "a" = some 1 ∧
    ObservableMap.has ([] : List (String × Nat)) "missing" = true := by
  decide

/-- C9: the remote-backed `GoogleRealtimeVector` permanently disables the
undo interface: `canUndo`/`canRedo` are constantly false and `undo`,
`redo`, `clearUndo`, `beginCompoundOperation`, `endCompoundOperation`
leave the contents unchanged, submit no remote operation and emit no
event, for every state of the vector. -/
theorem c9_undo_disabled {T J : Type} (l : List J) (b : Option Bool) :
    GoogleRealtimeVector.canUndo = false ∧
    GoogleRealtimeVector.canRedo = false ∧
    @GoogleRealtimeVector.undo T J l = (l, [], []) ∧
    @GoogleRealtimeVector.redo T J l = (l, [], []) ∧
    @GoogleRealtimeVector.clearUndo T J l = (l, [], []) ∧
    @GoogleRealtimeVector.beginCompoundOperation T J b l = (l, [], []) ∧
    @GoogleRealtimeVector.endCompoundOperation T J l = (l, [], []) :=
  ⟨rfl, rfl, rfl, rfl, rfl, rfl, rfl⟩

/-- C1 counterexample: `GoogleRealtimeVector.move` is a local mutator call
that submits two operations to the remote object (a `remove` followed by
an `insert`), each echoed as its own local change event — refuting the
claim that every local mutator call submits exactly one operation with a
single change event. -/
theorem c1_cex_move_two_ops :
    (GoogleRealtimeVector.move (fun n : Nat => n) (fun n : Nat => n) [0, 1, 2] 2 1).2.1 =
      [RemoteOp.remove 2, RemoteOp.insert 0 2] ∧
    ¬ ((GoogleRealtimeVector.move (fun n : Nat => n) (fun n : Nat => n)
        [0, 1, 2] 2 1).2.1.length = 1 ∧
       (GoogleRealtimeVector.move (fun n : Nat => n) (fun n : Nat => n)
        [0, 1, 2] 2 1).2.2.length = 1) := by
  decide

/-- C1 amended: on the bridge with a mock remote list, every
single-element local mutator call (`pushBack`, `set`, `popBack`,
`insert`, `removeAt`, `remove` of a present value, `clear` of a non-empty
vector) submits exactly one operation to the remote object and causes
exactly one local change event (the mock's echo of that operation), while
`move` decomposes into exactly two submitted operations; and every
remote-originated inbound event causes exactly one local change event and
zero operations re-submitted to the remote object. -/
theorem c1_amended_single_op_echo {T J : Type} [DecidableEq J]
    (toJSON : T → J) (factory : J → T) (l : List J) (v w : T) (i f t : Int)
    (e : RemoteEvent J)
    (hi : 0 ≤ i ∧ i.toNat < l.length)
    (hne : l ≠ [])
    (hmem : toJSON w ∈ l)
    (hf : 0 ≤ f ∧ f.toNat < l.length) :
    ((GoogleRealtimeVector.pushBack toJSON factory l v).2.1.length = 1 ∧
      (GoogleRealtimeVector.pushBack toJSON factory l v).2.2.length = 1) ∧
    ((GoogleRealtimeVector.set toJSON factory l i v).2.1.length = 1 ∧
      (GoogleRealtimeVector.set toJSON factory l i v).2.2.length = 1) ∧
    ((GoogleRealtimeVector.popBack factory l).2.1.length = 1 ∧
      (GoogleRealtimeVector.popBack factory l).2.2.length = 1) ∧
    ((GoogleRealtimeVector.insert toJSON factory l i v).2.1.length = 1 ∧
      (GoogleRealtimeVector.insert toJSON factory l i v).2.2.length = 1) ∧
    ((GoogleRealtimeVector.removeAt factory l i).2.1.length = 1 ∧
      (GoogleRealtimeVector.removeAt factory l i).2.2.length = 1) ∧
    ((GoogleRealtimeVector.remove toJSON factory l w).2.1.length = 1 ∧
      (GoogleRealtimeVector.remove toJSON factory l w).2.2.1.length = 1) ∧
    ((GoogleRealtimeVector.clear factory l).2.1.length = 1 ∧
      (GoogleRealtimeVector.clear factory l).2.2.length = 1) ∧
    (GoogleRealtimeVector.move toJSON factory l f t).2.1.length = 2 ∧
    ((GoogleRealtimeVector.onRemoteEvent factory e).1 = ([] : List (RemoteOp J)) ∧
      (GoogleRealtimeVector.onRemoteEvent factory e).2.length = 1) := by
  have hpop : 0 ≤ (l.length : Int) - 1 ∧ ((l.length : Int) - 1).toNat < l.length := by
    have := List.length_pos.mpr hne
    omega
  refine ⟨⟨rfl, rfl⟩, ?_, ?_, ?_, ?_, ?_, ?_, ?_, rfl, rfl⟩
  · simp only [GoogleRealtimeVector.set, GoogleRealtimeVector.submitOps, applyRemoteOp,
      dif_pos hi]
    simp
  · simp only [GoogleRealtimeVector.popBack, GoogleRealtimeVector.submitOps, applyRemoteOp,
      dif_pos hpop]
    simp
  · have hins : 0 ≤ i ∧ i.toNat ≤ l.length := ⟨hi.1, Nat.le_of_lt hi.2⟩
    simp only [GoogleRealtimeVector.insert, GoogleRealtimeVector.submitOps, applyRemoteOp,
      if_pos hins]
    simp
  · simp only [GoogleRealtimeVector.removeAt, GoogleRealtimeVector.submitOps, applyRemoteOp,
      dif_pos hi]
    simp
  · obtain ⟨hge, hlt⟩ := vecIndexOf_bounds_of_mem l (toJSON w) hmem
    have hneq : vecIndexOf l (toJSON w) ≠ -1 := by omega
    simp only [GoogleRealtimeVector.remove, if_pos hneq, GoogleRealtimeVector.removeAt,
      GoogleRealtimeVector.submitOps, applyRemoteOp, dif_pos (And.intro hge hlt)]
    simp
  · obtain ⟨x, xs, hcons⟩ : ∃ x xs, l = x :: xs := by
      cases l with
      | nil => exact absurd rfl hne
      | cons x xs => exact ⟨x, xs, rfl⟩
    subst hcons
    simp [GoogleRealtimeVector.clear, GoogleRealtimeVector.submitOps, applyRemoteOp]
  · simp only [GoogleRealtimeVector.move, dif_pos hf]
    split <;>
      simp [GoogleRealtimeVector.removeAt, GoogleRealtimeVector.insert,
        GoogleRealtimeVector.submitOps]

/-- Witness for `c1_amended_single_op_echo` at concrete inputs. -/
theorem c1_amended_single_op_echo_witness :
    (((0 : Int) ≤ 0 ∧ (0 : Int).toNat < [5, 7].length) ∧
      ([5, 7] : List Nat) ≠ [] ∧ (5 : Nat) ∈ [5, 7] ∧
      ((1 : Int) ≤ 1 ∧ True)) ∧
    (((GoogleRealtimeVector.pushBack (fun n : Nat => n) (fun n : Nat => n)
        [5, 7] 9).2.1.length = 1 ∧
      (GoogleRealtimeVector.pushBack (fun n : Nat => n) (fun n : Nat => n)
        [5, 7] 9).2.2.length = 1) ∧
     (GoogleRealtimeVector.move (fun n : Nat => n) (fun n : Nat => n)
        [5, 7] 1 0).2.1.length = 2 ∧
     (GoogleRealtimeVector.onRemoteEvent (fun n : Nat => n)
        (RemoteEvent.valuesAdded 0 [3])).1 = ([] : List (RemoteOp Nat))) := by
  have h := c1_amended_single_op_echo (fun n : Nat => n) (fun n : Nat => n) [5, 7] 9 5 0 1 0
    (RemoteEvent.valuesAdded 0 [3]) (by decide) (by decide) (by decide) (by decide)
  exact ⟨⟨by decide, by decide, by decide, by decide, trivial⟩,
    h.1, h.2.2.2.2.2.2.2.1, h.2.2.2.2.2.2.2.2.1⟩

/-- C6 counterexample: removing an absent value does return `-1` and leave
the contents unchanged, but it is not silent — `remove` calls
`removeAt(-1)`, which emits a `remove` change event unconditionally. -/
theorem c6_cex_remove_absent_emits :
    (some 1 ∉ [some (0 : Nat)]) ∧
    ¬ ((ObservableVector.remove [some (0 : Nat)] (some 1)).2.1 = []) := by
  decide

/-- C6 amended: for a vector not containing `v`, `remove(v)` returns `-1`
and leaves the contents unchanged, but emits exactly one `remove` change
event with `oldIndex = -1`, `newIndex = -1` and `oldValues = [undefined]`
(the return of the out-of-range `removeAt`). -/
theorem c6_amended_remove_absent {J : Type} [DecidableEq J]
    (l : List (Option J)) (v : Option J) (h : v ∉ l) :
    ObservableVector.remove l v =
      (l, [⟨VecCType.remove, -1, [], -1, [none]⟩], -1) := by
  have hneg : ¬ ((0 : Int) ≤ -1 ∧ ((-1 : Int)).toNat < l.length) := by
    intro hc
    omega
  simp only [ObservableVector.remove, ObservableVector.removeAt, vecRemoveAt,
    vecIndexOf_of_not_mem l v h, if_neg hneg]

/-- Witness for `c6_amended_remove_absent` at a concrete input. -/
theorem c6_amended_remove_absent_witness :
    (some 2 ∉ [some (0 : Nat), some 1]) ∧
    ObservableVector.remove [some (0 : Nat), some 1] (some 2) =
      ([some 0, some 1], [⟨VecCType.remove, -1, [], -1, [none]⟩], -1) :=
  ⟨by decide, c6_amended_remove_absent [some 0, some 1] (some 2) (by decide)⟩

/-- C7: at the failing input `['a','b','c'].move(2, 1)` (values modelled as
`0, 1, 2`), the code produces `['c','a','b']` — the moved value lands at
index 0, not at `toIndex = 1` — while the single emitted `move` event
claims `newIndex = 1`, contradicting the documented contract that the new
values are contiguous starting at `newIndex`.  The claim matches the
method's own documentation; the `toIndex - 1` branch for
`toIndex < fromIndex` is the slip. -/
theorem c7_move_off_by_one :
    (ObservableVector.move [some (0 : Nat), some 1, some 2] 2 1).1 =
      [some 2, some 0, some 1] ∧
    (ObservableVector.move [some (0 : Nat), some 1, some 2] 2 1).2 =
      [⟨VecCType.move, 1, [some 2], 2, [some 2]⟩] ∧
    atIdx (ObservableVector.move [some (0 : Nat), some 1, some 2] 2 1).1 1 ≠ some 2 := by
  decide

theorem vecInsert_of_valid {J : Type} [DecidableEq J] (l : List (Option J)) (i : Int)
    (v : Option J) (h0 : 0 ≤ i) (h1 : i.toNat ≤ l.length) :
    vecInsert l i v = l.insertIdx i.toNat v := by
  unfold vecInsert
  congr 1
  omega

theorem insertAllLoop_spec {J : Type} [DecidableEq J] (vs : List (Option J)) :
    ∀ (l : List (Option J)) (i : Int), 0 ≤ i → i.toNat ≤ l.length →
      ObservableVector.insertAllLoop l i vs = l.take i.toNat ++ vs ++ l.drop i.toNat := by
  induction vs with
  | nil =>
    intro l i h0 h1
    simp [ObservableVector.insertAllLoop]
  | cons v rest ih =>
    intro l i h0 h1
    have hins : vecInsert l i v = l.take i.toNat ++ v :: l.drop i.toNat := by
      rw [vecInsert_of_valid l i v h0 h1, list_insertIdx_eq_take_cons_drop l i.toNat v h1]
    have hlen : (vecInsert l i v).length = l.length + 1 := by
      rw [vecInsert_of_valid l i v h0 h1, List.length_insertIdx _ _ h1]
    have htake : (vecInsert l i v).take (i + 1).toNat = l.take i.toNat ++ [v] := by
      rw [hins]
      have hlt : (l.take i.toNat).length = i.toNat := List.length_take_of_le h1
      rw [List.take_append_eq_append_take, List.take_of_length_le (by omega)]
      congr 1
      have : (i + 1).toNat - (l.take i.toNat).length = 1 := by omega
      rw [this]
      rfl
    have hdrop : (vecInsert l i v).drop (i + 1).toNat = l.drop i.toNat := by
      rw [hins]
      have hlt : (l.take i.toNat).length = i.toNat := List.length_take_of_le h1
      rw [List.drop_append_eq_append_drop, List.drop_of_length_le (by omega)]
      have : (i + 1).toNat - (l.take i.toNat).length = 1 := by omega
      rw [this]
      rfl
    calc ObservableVector.insertAllLoop l i (v :: rest)
        = ObservableVector.insertAllLoop (vecInsert l i v) (i + 1) rest := rfl
      _ = (vecInsert l i v).take (i + 1).toNat ++ rest ++ (vecInsert l i v).drop (i + 1).toNat := by
          refine ih (vecInsert l i v) (i + 1) (by omega) (by omega)
      _ = l.take i.toNat ++ (v :: rest) ++ l.drop i.toNat := by
          rw [htake, hdrop]
          simp

theorem removeRangeLoop_spec {J : Type} [DecidableEq J] (k : Nat) :
    ∀ (l : List (Option J)) (s : Int), 0 ≤ s → s.toNat + k ≤ l.length →
      ObservableVector.removeRangeLoop l s k =
        ((l.drop s.toNat).take k, l.take s.toNat ++ l.drop (s.toNat + k)) := by
  induction k with
  | zero =>
    intro l s hs hk
    simp [ObservableVector.removeRangeLoop]
  | succ k ih =>
    intro l s hs hk
    have hlt : s.toNat < l.length := by omega
    have hrem : vecRemoveAt l s = ((l.get? s.toNat).getD none, l.eraseIdx s.toNat) := by
      rw [vecRemoveAt, if_pos ⟨hs, hlt⟩]
    have herase : l.eraseIdx s.toNat = l.take s.toNat ++ l.drop (s.toNat + 1) :=
      List.eraseIdx_eq_take_drop_succ l s.toNat
    have hlen : (l.eraseIdx s.toNat).length = l.length - 1 := by
      rw [List.length_eraseIdx]
      simp [hlt]
    have hih := ih (l.eraseIdx s.toNat) s hs (by omega)
    have htk : (l.take s.toNat).length = s.toNat := List.length_take_of_le (by omega)
    have hdropE : (l.eraseIdx s.toNat).drop s.toNat = l.drop (s.toNat + 1) := by
      rw [herase, List.drop_append_eq_append_drop, List.drop_of_length_le (by omega), htk]
      simp
    have htakeE : (l.eraseIdx s.toNat).take s.toNat = l.take s.toNat := by
      rw [herase, List.take_append_eq_append_take, List.take_of_length_le (by omega), htk]
      simp
    have hdropE2 : (l.eraseIdx s.toNat).drop (s.toNat + k) = l.drop (s.toNat + (k + 1)) := by
      rw [herase, List.drop_append_eq_append_drop, List.drop_of_length_le (by omega), htk]
      have h1 : s.toNat + k - s.toNat = k := by omega
      rw [h1, List.drop_drop]
      simp only [List.nil_append]
      congr 1
      omega
    have hhead : (l.drop s.toNat).take (k + 1) =
        (l.get? s.toNat).getD none :: ((l.drop (s.toNat + 1)).take k) := by
      rw [List.drop_eq_getElem_cons hlt, List.take_succ_cons]
      congr 1
      simp [hlt]
    calc ObservableVector.removeRangeLoop l s (k + 1)
        = ((l.get? s.toNat).getD none ::
            (ObservableVector.removeRangeLoop (l.eraseIdx s.toNat) s k).1,
           (ObservableVector.removeRangeLoop (l.eraseIdx s.toNat) s k).2) := by
          rw [ObservableVector.removeRangeLoop, hrem]
      _ = ((l.drop s.toNat).take (k + 1), l.take s.toNat ++ l.drop (s.toNat + (k + 1))) := by
          rw [hih, hhead, hdropE, htakeE, hdropE2]

theorem drop_append_left_length {α : Type} (a b : List α) (n : Nat) (h : a.length = n) :
    (a ++ b).drop n = b := by
  subst h
  exact List.drop_left a b

theorem drop_insertIdx_self {α : Type} (l : List α) (n : Nat) (v : α) (h : n ≤ l.length) :
    (l.insertIdx n v).drop n = v :: l.drop n := by
  rw [list_insertIdx_eq_take_cons_drop l n v h]
  exact drop_append_left_length _ _ _ (List.length_take_of_le h)

/-- C4 amended: every `ObservableVector` mutator called with valid
arguments emits exactly one change event; events of kind `add` have
`oldIndex = -1`, empty `oldValues`, and `newValues` forming a contiguous
run of the new contents starting at `newIndex`; events of kind `remove`
have `newIndex = -1`, empty `newValues`, and `oldValues` forming a
contiguous run of the old contents starting at `oldIndex` — with the
single exception of `clear()`, whose event has kind `remove` but
`newIndex = 0` (and `oldIndex = 0`, carrying the full old contents). -/
theorem c4_amended_event_shape {J : Type} [DecidableEq J] (l : List (Option J)) (op : OVOp J)
    (hv : OVValid l op) :
    (applyOV l op).2.length = 1 ∧
    ∀ e ∈ (applyOV l op).2,
      (e.type = VecCType.add →
        e.oldIndex = -1 ∧ e.oldValues = [] ∧ 0 ≤ e.newIndex ∧
        ((applyOV l op).1.drop e.newIndex.toNat).take e.newValues.length = e.newValues) ∧
      (e.type = VecCType.remove → op ≠ OVOp.clear →
        e.newIndex = -1 ∧ e.newValues = [] ∧ 0 ≤ e.oldIndex ∧
        (l.drop e.oldIndex.toNat).take e.oldValues.length = e.oldValues) ∧
      (op = OVOp.clear →
        e.type = VecCType.remove ∧ e.newIndex = 0 ∧ e.oldIndex = 0 ∧
        e.oldValues = l ∧ e.newValues = []) := by
  cases op with
  | set i v =>
    refine ⟨rfl, ?_⟩
    intro e he
    simp only [applyOV, ObservableVector.set, List.mem_singleton] at he
    subst he
    dsimp only
    exact ⟨fun h => by simp at h, fun h => by simp at h, fun h => by simp at h⟩
  | pushBack v =>
    refine ⟨rfl, ?_⟩
    intro e he
    simp only [applyOV, ObservableVector.pushBack, List.mem_singleton] at he
    subst he
    dsimp only
    refine ⟨?_, fun h => by simp at h, fun h => by simp at h⟩
    intro _
    have hlen : (l ++ [v]).length = l.length + 1 := by simp
    refine ⟨rfl, rfl, by rw [hlen]; omega, ?_⟩
    have h1 : ((((l ++ [v]).length : Nat) : Int) - 1).toNat = l.length := by
      rw [hlen]; omega
    simp only [applyOV, ObservableVector.pushBack]
    rw [h1, List.drop_left]
    rfl
  | popBack =>
    have hx : l.getLast? = some (l.getLast hv) := List.getLast?_eq_getLast_of_ne_nil hv
    refine ⟨rfl, ?_⟩
    intro e he
    simp only [applyOV, ObservableVector.popBack, List.mem_singleton] at he
    subst he
    dsimp only
    refine ⟨fun h => by simp at h, ?_, fun h => by simp at h⟩
    intro _ _
    have h1 : ((l.dropLast.length : Nat) : Int).toNat = l.length - 1 := by
      simp [List.length_dropLast]
    refine ⟨rfl, rfl, by omega, ?_⟩
    rw [h1, list_drop_length_sub_one l hv, hx]
    rfl
  | insert i v =>
    refine ⟨rfl, ?_⟩
    intro e he
    simp only [applyOV, ObservableVector.insert, List.mem_singleton] at he
    subst he
    dsimp only
    refine ⟨?_, fun h => by simp at h, fun h => by simp at h⟩
    intro _
    refine ⟨rfl, rfl, hv.1, ?_⟩
    simp only [applyOV, ObservableVector.insert]
    rw [vecInsert_of_valid l i v hv.1 hv.2, drop_insertIdx_self l i.toNat v hv.2]
    rfl
  | remove v =>
    obtain ⟨hge, hlt⟩ := vecIndexOf_bounds_of_mem l v hv
    refine ⟨rfl, ?_⟩
    intro e he
    simp only [applyOV, ObservableVector.remove, ObservableVector.removeAt,
      List.mem_singleton] at he
    subst he
    dsimp only
    refine ⟨fun h => by simp at h, ?_, fun h => by simp at h⟩
    intro _ _
    have hr : (vecRemoveAt l (vecIndexOf l v)).1 =
        (l.get? (vecIndexOf l v).toNat).getD none := by
      rw [vecRemoveAt, if_pos ⟨hge, hlt⟩]
    refine ⟨rfl, rfl, hge, ?_⟩
    have hget : (l.get? (vecIndexOf l v).toNat).getD none = l[(vecIndexOf l v).toNat] := by
      simp [hlt]
    rw [hr, hget, List.drop_eq_getElem_cons hlt]
    rfl
  | removeAt i =>
    refine ⟨rfl, ?_⟩
    intro e he
    simp only [applyOV, ObservableVector.removeAt, List.mem_singleton] at he
    subst he
    dsimp only
    refine ⟨fun h => by simp at h, ?_, fun h => by simp at h⟩
    intro _ _
    have hv2 : 0 ≤ i ∧ i.toNat < l.length := hv
    have hr : (vecRemoveAt l i).1 = (l.get? i.toNat).getD none := by
      rw [vecRemoveAt, if_pos hv2]
    refine ⟨rfl, rfl, hv2.1, ?_⟩
    have hget : (l.get? i.toNat).getD none = l[i.toNat] := by
      simp [hv2.2]
    rw [hr, hget, List.drop_eq_getElem_cons hv2.2]
    rfl
  | clear =>
    refine ⟨rfl, ?_⟩
    intro e he
    simp only [applyOV, ObservableVector.clear, List.mem_singleton] at he
    subst he
    dsimp only
    exact ⟨fun h => by simp at h, fun _ hop => absurd rfl hop,
      fun _ => ⟨rfl, rfl, rfl, rfl, rfl⟩⟩
  | move f t =>
    refine ⟨rfl, ?_⟩
    intro e he
    simp only [applyOV, ObservableVector.move, List.mem_singleton] at he
    subst he
    dsimp only
    exact ⟨fun h => by simp at h, fun h => by simp at h, fun h => by simp at h⟩
  | pushAll vs =>
    refine ⟨rfl, ?_⟩
    intro e he
    simp only [applyOV, ObservableVector.pushAll, List.mem_singleton] at he
    subst he
    dsimp only
    refine ⟨?_, fun h => by simp at h, fun h => by simp at h⟩
    intro _
    refine ⟨rfl, rfl, by omega, ?_⟩
    simp only [applyOV, ObservableVector.pushAll]
    rw [Int.toNat_ofNat, List.drop_left, List.take_length]
  | insertAll i vs =>
    refine ⟨rfl, ?_⟩
    intro e he
    simp only [applyOV, ObservableVector.insertAll, List.mem_singleton] at he
    subst he
    dsimp only
    refine ⟨?_, fun h => by simp at h, fun h => by simp at h⟩
    intro _
    refine ⟨rfl, rfl, hv.1, ?_⟩
    simp only [applyOV, ObservableVector.insertAll]
    rw [insertAllLoop_spec vs l i hv.1 hv.2, List.append_assoc,
      drop_append_left_length _ _ _ (List.length_take_of_le hv.2), List.take_left]
  | removeRange s e2 =>
    refine ⟨rfl, ?_⟩
    intro e he
    simp only [applyOV, ObservableVector.removeRange, List.mem_singleton] at he
    subst he
    dsimp only
    refine ⟨fun h => by simp at h, ?_, fun h => by simp at h⟩
    intro _ _
    obtain ⟨hs, hse, he2⟩ := hv
    have hk : s.toNat + (e2 - s).toNat ≤ l.length := by omega
    have hspec := removeRangeLoop_spec (e2 - s).toNat l s hs hk
    refine ⟨rfl, rfl, hs, ?_⟩
    rw [hspec]
    have hlen2 : ((l.drop s.toNat).take (e2 - s).toNat).length = (e2 - s).toNat := by
      rw [List.length_take, List.length_drop]
      omega
    rw [hlen2]

/-- C4 counterexample: `clear()` on a non-empty vector emits a `remove`
change event whose `newIndex` is `0`, not `-1` — refuting the claim that
every `remove` event has `newIndex = -1`, "including clear()". -/
theorem c4_cex_clear_newIndex :
    (applyOV [some (0 : Nat)] OVOp.clear).2 =
      [⟨VecCType.remove, 0, [], 0, [some 0]⟩] ∧
    ∃ e ∈ (applyOV [some (0 : Nat)] OVOp.clear).2,
      e.type = VecCType.remove ∧ e.newIndex ≠ -1 := by
  decide

/-- Witness for `c4_amended_event_shape` at a concrete input. -/
theorem c4_amended_event_shape_witness :
    OVValid [some (1 : Nat)] (OVOp.pushBack (some 5)) ∧
    ((applyOV [some (1 : Nat)] (OVOp.pushBack (some 5))).2.length = 1 ∧
     ∀ e ∈ (applyOV [some (1 : Nat)] (OVOp.pushBack (some 5))).2,
       (e.type = VecCType.add → e.oldIndex = -1 ∧ e.oldValues = [] ∧ 0 ≤ e.newIndex ∧
         ((applyOV [some (1 : Nat)] (OVOp.pushBack (some 5))).1.drop e.newIndex.toNat).take
           e.newValues.length = e.newValues) ∧
       (e.type = VecCType.remove → (OVOp.pushBack (some 5) : OVOp Nat) ≠ OVOp.clear →
         e.newIndex = -1 ∧ e.newValues = [] ∧ 0 ≤ e.oldIndex ∧
         (([some (1 : Nat)]).drop e.oldIndex.toNat).take e.oldValues.length = e.oldValues) ∧
       ((OVOp.pushBack (some 5) : OVOp Nat) = OVOp.clear →
         e.type = VecCType.remove ∧ e.newIndex = 0 ∧ e.oldIndex = 0 ∧
         e.oldValues = [some (1 : Nat)] ∧ e.newValues = [])) :=
  ⟨trivial, c4_amended_event_shape [some 1] (OVOp.pushBack (some 5)) trivial⟩

theorem take_append_left_length {α : Type} (a b : List α) (n : Nat) (h : a.length = n) :
    (a ++ b).take n = a := by
  subst h
  exact List.take_left a b

theorem insertIdx_getElem_eraseIdx {α : Type} (l : List α) (i : Nat) (h : i < l.length) :
    (l.eraseIdx i).insertIdx i (l.get ⟨i, h⟩) = l := by
  have he : l.eraseIdx i = l.take i ++ l.drop (i + 1) := List.eraseIdx_eq_take_drop_succ l i
  have hlen : (l.eraseIdx i).length = l.length - 1 := by
    rw [List.length_eraseIdx]
    simp [h]
  rw [list_insertIdx_eq_take_cons_drop _ _ _ (by omega), he,
    take_append_left_length _ _ _ (List.length_take_of_le (by omega)),
    drop_append_left_length _ _ _ (List.length_take_of_le (by omega))]
  conv_rhs => rw [← List.take_append_drop i l]
  rw [List.drop_eq_getElem_cons h]
  rfl

theorem eraseIdx_length_sub_one {α : Type} (l : List α) :
    l.eraseIdx (l.length - 1) = l.dropLast := by
  cases l with
  | nil => rfl
  | cons x xs =>
    have he := List.eraseIdx_eq_take_drop_succ (x :: xs) ((x :: xs).length - 1)
    rw [he, List.dropLast_eq_take]
    have : (x :: xs).length - 1 + 1 = (x :: xs).length := by simp
    rw [this, List.drop_length, List.append_nil]

theorem dropLast_insertIdx_getLast {α : Type} (l : List α) (h : l ≠ []) :
    l.dropLast.insertIdx (l.length - 1) ((l.getLast?).getD (l.getLast h)) = l := by
  have hx : l.getLast? = some (l.getLast h) := List.getLast?_eq_getLast_of_ne_nil h
  rw [hx]
  have hlen : l.dropLast.length = l.length - 1 := List.length_dropLast l
  rw [← hlen, List.insertIdx_length_self]
  show l.dropLast ++ [l.getLast h] = l
  exact List.dropLast_append_getLast h

theorem move_list_roundtrip {α : Type} (l : List α) (f t : Nat)
    (hf : f < l.length) (ht : t < l.length) :
    let m := (l.eraseIdx f).insertIdx t (l.get ⟨f, hf⟩)
    ∀ hm : t < m.length,
      (m.eraseIdx t).insertIdx f (m.get ⟨t, hm⟩) = l := by
  intro m hm
  have hlen : (l.eraseIdx f).length = l.length - 1 := by
    rw [List.length_eraseIdx]
    simp [hf]
  have hts : t ≤ (l.eraseIdx f).length := by omega
  have hmt : m.get ⟨t, hm⟩ = l.get ⟨f, hf⟩ := by
    show m[t] = _
    exact List.getElem_insertIdx_self (l.eraseIdx f) (l.get ⟨f, hf⟩) t hts
  have her : m.eraseIdx t = l.eraseIdx f := List.eraseIdx_insertIdx t (l.eraseIdx f)
  rw [hmt, her]
  exact insertIdx_getElem_eraseIdx l f hf

theorem record_congr {J : Type} [DecidableEq J] {a b : RVState J} {c d : VecEvent J}
    (h1 : a = b) (h2 : c = d) :
    RacerVector.onVectorChanged a c = RacerVector.onVectorChanged b d := by
  rw [h1, h2]

theorem applyRMut_eq_record {J : Type} [DecidableEq J] (s : RVState J) (m : RMut J)
    (hlen : s.len = s.list.length) (hv : RMutValid s.list m) :
    applyRMut s m = RacerVector.onVectorChanged
      { s with list := rmutStep s.list m, len := (rmutStep s.list m).length }
      (rmutEvt s.list m) := by
  cases m with
  | push v =>
    simp only [applyRMut, RacerVector.pushBack, RacerVector.onInsertEvent, rmutStep, rmutEvt]
    refine record_congr ?_ rfl
    simp [hlen]
  | pop =>
    have hne : s.list ≠ [] := hv
    have hx : s.list.getLast? = some (s.list.getLast hne) :=
      List.getLast?_eq_getLast_of_ne_nil hne
    simp only [applyRMut, RacerVector.popBack, hx, RacerVector.onRemoveEvent,
      rmutStep, rmutEvt]
    refine record_congr ?_ ?_
    · simp [hlen, List.length_dropLast]
    · rfl
  | insert i v =>
    have hi : i ≤ s.list.length := hv
    have hg : (0 : Int) ≤ (i : Int) ∧ ((i : Int)).toNat ≤ s.list.length := by
      constructor
      · omega
      · simpa using hi
    simp only [applyRMut, RacerVector.insert]
    rw [if_pos hg]
    simp only [RacerVector.onInsertEvent, rmutStep, rmutEvt, Int.toNat_ofNat]
    refine record_congr ?_ rfl
    simp [hlen, List.length_insertIdx _ _ hi]
  | removeAt i =>
    have hi : i < s.list.length := hv
    have hg : (0 : Int) ≤ (i : Int) ∧ ((i : Int)).toNat < s.list.length := by
      constructor
      · omega
      · simpa using hi
    simp only [applyRMut, RacerVector.removeAt]
    rw [dif_pos hg]
    simp only [RacerVector.onRemoveEvent, rmutStep, rmutEvt, Int.toNat_ofNat]
    refine record_congr ?_ ?_
    · have h1 : (s.list.eraseIdx i).length = s.list.length - 1 := by
        rw [List.length_eraseIdx]
        simp [hi]
      simp [hlen, h1]
    · simp [hi]
  | set i v =>
    have hi : i < s.list.length := hv.1
    have hg : (0 : Int) ≤ (i : Int) ∧ ((i : Int)).toNat < s.list.length := by
      constructor
      · omega
      · simpa using hi
    have hneq : ¬ s.list.get ⟨((i : Int)).toNat, hg.2⟩ = v := by
      intro he
      apply hv.2
      rw [← he]
      simp [hi]
    simp only [applyRMut, RacerVector.set]
    rw [dif_pos hg, if_neg hneq]
    simp only [RacerVector.onChangeEvent, rmutStep, rmutEvt, Int.toNat_ofNat]
    refine record_congr ?_ ?_
    · simp [hlen]
    · simp [hi]
  | move f t =>
    obtain ⟨hf, ht, hft⟩ := hv
    have hbail : ¬ (s.len ≤ 1 ∨ (f : Int) = (t : Int)) := by
      push_neg
      constructor
      · omega
      · intro he
        exact hft (by exact_mod_cast he)
    have hg : ((0 : Int) ≤ (f : Int) ∧ ((f : Int)).toNat < s.list.length) ∧
        ((0 : Int) ≤ (t : Int) ∧ ((t : Int)).toNat < s.list.length) := by
      refine ⟨⟨by omega, by simpa using hf⟩, ⟨by omega, by simpa using ht⟩⟩
    have hget : s.list.get? f = some (s.list.get ⟨f, hf⟩) := by
      simp [hf]
    have herlen : (s.list.eraseIdx f).length = s.list.length - 1 := by
      rw [List.length_eraseIdx]
      simp [hf]
    have hts : t ≤ (s.list.eraseIdx f).length := by omega
    have hm : t < ((s.list.eraseIdx f).insertIdx t (s.list.get ⟨f, hf⟩)).length := by
      rw [List.length_insertIdx _ _ hts]
      omega
    have hgt : ((s.list.eraseIdx f).insertIdx t (s.list.get ⟨f, hf⟩)).get? t =
        some (((s.list.eraseIdx f).insertIdx t (s.list.get ⟨f, hf⟩)).get ⟨t, hm⟩) := by
      simp [hm]
    simp only [applyRMut, RacerVector.move]
    rw [if_neg hbail, dif_pos hg]
    simp only [RacerVector.onMoveEvent, rmutStep, rmutEvt, Int.toNat_ofNat, hget, hgt]
    refine record_congr ?_ ?_
    · have hml : ((s.list.eraseIdx f).insertIdx t (s.list.get ⟨f, hf⟩)).length =
          s.list.length := by
        rw [List.length_insertIdx _ _ hts]
        omega
      simp only [List.get_eq_getElem] at hml
      simp [hlen, hml]
    · rfl

theorem onVectorChanged_skip {J : Type} [DecidableEq J] (s : RVState J) (c : VecEvent J)
    (h : s.isUndoable = false) :
    RacerVector.onVectorChanged s c = s := by
  simp [RacerVector.onVectorChanged, h]

theorem onVectorChanged_clean {J : Type} [DecidableEq J] (s : RVState J) (c : VecEvent J)
    (hu : s.isUndoable = true) (hc : s.inCompound = false)
    (hidx : s.index = (s.stack.length : Int) - 1) :
    RacerVector.onVectorChanged s c =
      { s with stack := s.stack ++ [[c]], index := s.index + 1 } := by
  have h1 : (s.index + 1).toNat = s.stack.length := by omega
  have h2 : ¬ s.stack.length < s.stack.length := lt_irrefl _
  simp only [RacerVector.onVectorChanged, hu, hc]
  simp [h1, List.take_length, h2]

theorem onVectorChanged_compound_first {J : Type} [DecidableEq J] (s : RVState J)
    (c : VecEvent J) (hu : s.isUndoable = true) (hc : s.inCompound = true)
    (hm : s.madeCompoundChange = false)
    (hidx : s.index = (s.stack.length : Int) - 1) :
    RacerVector.onVectorChanged s c =
      { s with stack := s.stack ++ [[c]], madeCompoundChange := true } := by
  have h1 : (s.index + 1).toNat = s.stack.length := by omega
  have h2 : ¬ s.stack.length < s.stack.length := lt_irrefl _
  simp only [RacerVector.onVectorChanged, hu, hc, hm]
  simp [h1, List.take_length, h2]

theorem onVectorChanged_compound_next {J : Type} [DecidableEq J] (s : RVState J)
    (c : VecEvent J) (b : List (VecEvent J))
    (hu : s.isUndoable = true) (hc : s.inCompound = true)
    (hm : s.madeCompoundChange = true)
    (hidx : s.index + 1 + 1 = (s.stack.length : Int))
    (hb : s.stack.get? (s.stack.length - 1) = some b) :
    RacerVector.onVectorChanged s c =
      { s with stack := s.stack.set (s.stack.length - 1) (b ++ [c]) } := by
  have hbnd : s.stack.length - 1 < s.stack.length := (List.get?_eq_some.mp hb).1
  have h1 : (s.index + 1).toNat = s.stack.length - 1 := by omega
  have hget : s.stack[s.stack.length - 1] = b := by
    have h2 : s.stack.get? (s.stack.length - 1) = some s.stack[s.stack.length - 1] := by
      simp [hbnd]
    rw [h2] at hb
    exact Option.some_inj.mp hb
  simp only [RacerVector.onVectorChanged, hu, hc, hm]
  simp [h1, hbnd, hget, hc, hm]

theorem applyRMut_replay {J : Type} [DecidableEq J] (s : RVState J) (m : RMut J)
    (hu : s.isUndoable = false) (hlen : s.len = s.list.length) (hv : RMutValid s.list m) :
    applyRMut s m =
      { s with list := rmutStep s.list m, len := (rmutStep s.list m).length } := by
  rw [applyRMut_eq_record s m hlen hv]
  exact onVectorChanged_skip _ _ hu

theorem applyRMut_clean {J : Type} [DecidableEq J] (s : RVState J) (m : RMut J)
    (hu : s.isUndoable = true) (hc : s.inCompound = false)
    (hidx : s.index = (s.stack.length : Int) - 1)
    (hlen : s.len = s.list.length) (hv : RMutValid s.list m) :
    applyRMut s m =
      { s with
        list := rmutStep s.list m
        len := (rmutStep s.list m).length
        stack := s.stack ++ [[rmutEvt s.list m]]
        index := s.index + 1 } := by
  rw [applyRMut_eq_record s m hlen hv]
  exact onVectorChanged_clean _ _ hu hc hidx

theorem applyRMut_replay_to {J : Type} [DecidableEq J] (s : RVState J) (m : RMut J)
    (l : List J) (hu : s.isUndoable = false) (hlen : s.len = s.list.length)
    (hv : RMutValid s.list m) (hstep : rmutStep s.list m = l) :
    applyRMut s m = { s with list := l, len := l.length } := by
  rw [applyRMut_replay s m hu hlen hv, hstep]

theorem undoChange_inverts {J : Type} [DecidableEq J] (s : RVState J) (l : List J)
    (m : RMut J) (hu : s.isUndoable = false)
    (hlist : s.list = rmutStep l m) (hlen : s.len = s.list.length)
    (hv : RMutValid l m) :
    RacerVector.undoChange s (rmutEvt l m) = { s with list := l, len := l.length } := by
  cases m with
  | push v =>
    show RacerVector.removeAt s (l.length : Int) = _
    have hv2 : RMutValid s.list (RMut.removeAt l.length) := by
      rw [hlist]
      show l.length < (l ++ [v]).length
      simp
    refine applyRMut_replay_to s (RMut.removeAt l.length) l hu hlen hv2 ?_
    rw [hlist]
    show (l ++ [v]).eraseIdx l.length = l
    rw [← List.insertIdx_length_self l v, List.eraseIdx_insertIdx]
  | pop =>
    have hne : l ≠ [] := hv
    have hx : l.getLast? = some (l.getLast hne) := List.getLast?_eq_getLast_of_ne_nil hne
    have hpos : 0 < l.length := List.length_pos.mpr hne
    have hcast : ((l.length : Int) - 1) = ((l.length - 1 : Nat) : Int) := by omega
    simp only [RacerVector.undoChange, rmutEvt, hx, Option.toList_some, List.foldl_cons,
      List.foldl_nil]
    rw [hcast]
    show RacerVector.insert s ((l.length - 1 : Nat) : Int) (l.getLast hne) = _
    have hv2 : RMutValid s.list (RMut.insert (l.length - 1) (l.getLast hne)) := by
      rw [hlist]
      show l.length - 1 ≤ l.dropLast.length
      rw [List.length_dropLast]
    refine applyRMut_replay_to s _ l hu hlen hv2 ?_
    rw [hlist]
    show l.dropLast.insertIdx (l.length - 1) (l.getLast hne) = l
    have := dropLast_insertIdx_getLast l hne
    rw [hx] at this
    exact this
  | insert i v =>
    show RacerVector.removeAt s (i : Int) = _
    have hi : i ≤ l.length := hv
    have hv2 : RMutValid s.list (RMut.removeAt i) := by
      rw [hlist]
      show i < (l.insertIdx i v).length
      rw [List.length_insertIdx _ _ hi]
      omega
    refine applyRMut_replay_to s (RMut.removeAt i) l hu hlen hv2 ?_
    rw [hlist]
    show (l.insertIdx i v).eraseIdx i = l
    exact List.eraseIdx_insertIdx i l
  | removeAt i =>
    have hi : i < l.length := hv
    have hgi : l.get? i = some (l.get ⟨i, hi⟩) := by simp [hi]
    simp only [RacerVector.undoChange, rmutEvt, hgi, Option.toList_some, List.foldl_cons,
      List.foldl_nil]
    show RacerVector.insert s (i : Int) (l.get ⟨i, hi⟩) = _
    have hv2 : RMutValid s.list (RMut.insert i (l.get ⟨i, hi⟩)) := by
      rw [hlist]
      show i ≤ (l.eraseIdx i).length
      rw [List.length_eraseIdx]
      simp [hi]
      omega
    refine applyRMut_replay_to s _ l hu hlen hv2 ?_
    rw [hlist]
    show (l.eraseIdx i).insertIdx i (l.get ⟨i, hi⟩) = l
    exact insertIdx_getElem_eraseIdx l i hi
  | set i v =>
    have hi : i < l.length := hv.1
    have hgi : l.get? i = some (l.get ⟨i, hi⟩) := by simp [hi]
    simp only [RacerVector.undoChange, rmutEvt, hgi, Option.toList_some, List.foldl_cons,
      List.foldl_nil]
    show RacerVector.set s (i : Int) (l.get ⟨i, hi⟩) = _
    have hsi : (l.set i v).get? i = some v := by
      have : i < (l.set i v).length := by simp [hi]
      simp [List.getElem_set_self, hi]
    have hv2 : RMutValid s.list (RMut.set i (l.get ⟨i, hi⟩)) := by
      rw [hlist]
      refine ⟨by show i < (l.set i v).length; rw [List.length_set]; exact hi, ?_⟩
      show (l.set i v).get? i ≠ some (l.get ⟨i, hi⟩)
      rw [hsi]
      intro he
      apply hv.2
      rw [hgi]
      have : v = l.get ⟨i, hi⟩ := Option.some_inj.mp he
      rw [this]
    refine applyRMut_replay_to s _ l hu hlen hv2 ?_
    rw [hlist]
    show (l.set i v).set i (l.get ⟨i, hi⟩) = l
    rw [List.set_set]
    exact list_set_self l i hi
  | move f t =>
    obtain ⟨hf, ht, hft⟩ := hv
    have hgf : l.get? f = some (l.get ⟨f, hf⟩) := by simp [hf]
    have herlen : (l.eraseIdx f).length = l.length - 1 := by
      rw [List.length_eraseIdx]
      simp [hf]
    have hts : t ≤ (l.eraseIdx f).length := by omega
    have hmlen : ((l.eraseIdx f).insertIdx t (l.get ⟨f, hf⟩)).length = l.length := by
      rw [List.length_insertIdx _ _ hts]
      omega
    have hstep0 : rmutStep l (RMut.move f t) = (l.eraseIdx f).insertIdx t (l.get ⟨f, hf⟩) := by
      simp only [rmutStep, hgf]
    show RacerVector.move s (t : Int) (f : Int) = _
    have hv2 : RMutValid s.list (RMut.move t f) := by
      rw [hlist, hstep0]
      exact ⟨by omega, by omega, fun he => hft he.symm⟩
    refine applyRMut_replay_to s (RMut.move t f) l hu hlen hv2 ?_
    rw [hlist, hstep0]
    have hm : t < ((l.eraseIdx f).insertIdx t (l.get ⟨f, hf⟩)).length := by omega
    have hgt : ((l.eraseIdx f).insertIdx t (l.get ⟨f, hf⟩)).get? t =
        some (((l.eraseIdx f).insertIdx t (l.get ⟨f, hf⟩)).get ⟨t, hm⟩) := by
      simp [hm]
    simp only [rmutStep, hgt]
    exact move_list_roundtrip l f t hf ht hm

theorem redoChange_forward {J : Type} [DecidableEq J] (s : RVState J) (l : List J)
    (m : RMut J) (hu : s.isUndoable = false)
    (hlist : s.list = l) (hlen : s.len = s.list.length)
    (hv : RMutValid l m) :
    (RacerVector.redoChange s (rmutEvt l m)).1 =
      { s with list := rmutStep l m, len := (rmutStep l m).length } := by
  cases m with
  | push v =>
    show RacerVector.insert s (l.length : Int) v = _
    have hv2 : RMutValid s.list (RMut.insert l.length v) := by
      rw [hlist]
      show l.length ≤ l.length
      exact le_refl _
    refine applyRMut_replay_to s (RMut.insert l.length v) _ hu hlen hv2 ?_
    rw [hlist]
    show l.insertIdx l.length v = l ++ [v]
    exact List.insertIdx_length_self l v
  | pop =>
    have hne : l ≠ [] := hv
    have hx : l.getLast? = some (l.getLast hne) := List.getLast?_eq_getLast_of_ne_nil hne
    have hpos : 0 < l.length := List.length_pos.mpr hne
    have hcast : ((l.length : Int) - 1) = ((l.length - 1 : Nat) : Int) := by omega
    simp only [RacerVector.redoChange, rmutEvt, hx, Option.toList_some, List.foldl_cons,
      List.foldl_nil]
    rw [hcast]
    show RacerVector.removeAt s ((l.length - 1 : Nat) : Int) = _
    have hv2 : RMutValid s.list (RMut.removeAt (l.length - 1)) := by
      rw [hlist]
      show l.length - 1 < l.length
      omega
    refine applyRMut_replay_to s _ _ hu hlen hv2 ?_
    rw [hlist]
    show l.eraseIdx (l.length - 1) = l.dropLast
    exact eraseIdx_length_sub_one l
  | insert i v =>
    show RacerVector.insert s (i : Int) v = _
    have hv2 : RMutValid s.list (RMut.insert i v) := by
      rw [hlist]
      exact hv
    refine applyRMut_replay_to s (RMut.insert i v) _ hu hlen hv2 ?_
    rw [hlist]
  | removeAt i =>
    have hi : i < l.length := hv
    have hgi : l.get? i = some (l.get ⟨i, hi⟩) := by simp [hi]
    simp only [RacerVector.redoChange, rmutEvt, hgi, Option.toList_some, List.foldl_cons,
      List.foldl_nil]
    show RacerVector.removeAt s (i : Int) = _
    have hv2 : RMutValid s.list (RMut.removeAt i) := by
      rw [hlist]
      exact hv
    refine applyRMut_replay_to s (RMut.removeAt i) _ hu hlen hv2 ?_
    rw [hlist]
  | set i v =>
    show RacerVector.set s (i : Int) v = _
    have hv2 : RMutValid s.list (RMut.set i v) := by
      rw [hlist]
      exact hv
    refine applyRMut_replay_to s (RMut.set i v) _ hu hlen hv2 ?_
    rw [hlist]
  | move f t =>
    show RacerVector.move s (f : Int) (t : Int) = _
    have hv2 : RMutValid s.list (RMut.move f t) := by
      rw [hlist]
      exact hv
    refine applyRMut_replay_to s (RMut.move f t) _ hu hlen hv2 ?_
    rw [hlist]

theorem rmutEvts_length {J : Type} [DecidableEq J] (ms : List (RMut J)) :
    ∀ l : List J, (rmutEvts l ms).length = ms.length := by
  induction ms with
  | nil => intro l; rfl
  | cons m rest ih =>
    intro l
    simp only [rmutEvts, List.length_cons, ih]

theorem rmutSteps_nil {J : Type} [DecidableEq J] (l : List J) : rmutSteps l [] = l := rfl

theorem rmutSteps_take_succ {J : Type} [DecidableEq J] (ms : List (RMut J)) :
    ∀ (l : List J) (k : Nat) (hk : k < ms.length),
      rmutSteps l (ms.take (k + 1)) =
        rmutStep (rmutSteps l (ms.take k)) (ms.get ⟨k, hk⟩) := by
  induction ms with
  | nil => intro l k hk; cases hk
  | cons m rest ih =>
    intro l k hk
    cases k with
    | zero => rfl
    | succ j =>
      have hj : j < rest.length := Nat.lt_of_succ_lt_succ hk
      show rmutSteps (rmutStep l m) (rest.take (j + 1)) = _
      rw [ih (rmutStep l m) j hj]
      rfl

theorem rmutsValid_get {J : Type} [DecidableEq J] (ms : List (RMut J)) :
    ∀ (l : List J), RMutsValid l ms → ∀ (k : Nat) (hk : k < ms.length),
      RMutValid (rmutSteps l (ms.take k)) (ms.get ⟨k, hk⟩) := by
  induction ms with
  | nil => intro l _ k hk; cases hk
  | cons m rest ih =>
    intro l hv k hk
    cases k with
    | zero => exact hv.1
    | succ j =>
      have hj : j < rest.length := Nat.lt_of_succ_lt_succ hk
      exact ih (rmutStep l m) hv.2 j hj

theorem rmutEvts_get? {J : Type} [DecidableEq J] (ms : List (RMut J)) :
    ∀ (l : List J) (k : Nat) (hk : k < ms.length),
      (rmutEvts l ms).get? k =
        some (rmutEvt (rmutSteps l (ms.take k)) (ms.get ⟨k, hk⟩)) := by
  induction ms with
  | nil => intro l k hk; cases hk
  | cons m rest ih =>
    intro l k hk
    cases k with
    | zero => rfl
    | succ j =>
      have hj : j < rest.length := Nat.lt_of_succ_lt_succ hk
      show (rmutEvts (rmutStep l m) rest).get? j = _
      rw [ih (rmutStep l m) j hj]
      rfl

theorem applyRMuts_clean_spec {J : Type} [DecidableEq J] (ms : List (RMut J)) :
    ∀ (s : RVState J), s.isUndoable = true → s.inCompound = false →
      s.index = (s.stack.length : Int) - 1 → s.len = s.list.length →
      RMutsValid s.list ms →
      applyRMuts s ms = { s with
        list := rmutSteps s.list ms
        len := (rmutSteps s.list ms).length
        stack := s.stack ++ (rmutEvts s.list ms).map (fun e => [e])
        index := s.index + ms.length } := by
  induction ms with
  | nil =>
    intro s hu hc hidx hlen _
    show s = _
    simp only [rmutSteps, List.foldl_nil, rmutEvts, List.map_nil, List.append_nil,
      List.length_nil, Nat.cast_zero, add_zero]
    rw [← hlen]
  | cons m rest ih =>
    intro s hu hc hidx hlen hv
    show applyRMuts (applyRMut s m) rest = _
    rw [applyRMut_clean s m hu hc hidx hlen hv.1]
    rw [ih _ (by simp [hu]) (by simp [hc]) (by simp; omega) (by simp) (by simpa using hv.2)]
    simp only [rmutSteps, rmutEvts, List.foldl_cons, List.map_cons]
    rw [List.append_assoc]
    have hidx2 : s.index + 1 + (rest.length : Int) = s.index + ((m :: rest).length : Int) := by
      simp only [List.length_cons]
      push_cast
      ring
    rw [hidx2]
    rfl

theorem list_set_of_get? {α : Type} (l : List α) (i : Nat) (a : α)
    (h : l.get? i = some a) : l.set i a = l := by
  have hb : i < l.length := (List.get?_eq_some.mp h).1
  have hval : l.get ⟨i, hb⟩ = a := by
    have h2 : l.get? i = some (l.get ⟨i, hb⟩) := by simp [hb]
    rw [h2] at h
    exact Option.some_inj.mp h
  rw [← hval]
  exact list_set_self l i hb

theorem undo_singleton_top {J : Type} [DecidableEq J] (s : RVState J) (l : List J)
    (m : RMut J) (k : Nat)
    (hstack : s.stack.get? k = some [rmutEvt l m])
    (hidx : s.index = (k : Int))
    (hu : s.isUndoable = true)
    (hlist : s.list = rmutStep l m) (hlen : s.len = s.list.length)
    (hv : RMutValid l m) :
    RacerVector.undo s =
      { s with list := l, len := l.length, index := s.index - 1 } := by
  have hguard : ¬ ¬ (0 : Int) ≤ s.index := by omega
  have hk : s.index.toNat = k := by omega
  simp only [RacerVector.undo, if_neg hguard, hk, hstack]
  have hrev : ([rmutEvt l m] : List (VecEvent J)).reverse = [rmutEvt l m] := rfl
  rw [hrev, list_set_of_get? s.stack k [rmutEvt l m] hstack]
  simp only [List.foldl_cons, List.foldl_nil]
  rw [undoChange_inverts { s with isUndoable := false } l m rfl hlist hlen hv]
  rw [hu]

theorem redo_singleton_next {J : Type} [DecidableEq J] (s : RVState J) (l : List J)
    (m : RMut J) (k : Nat)
    (hstack : s.stack.get? k = some [rmutEvt l m])
    (hidx : s.index = (k : Int) - 1)
    (hu : s.isUndoable = true)
    (hlist : s.list = l) (hlen : s.len = s.list.length)
    (hv : RMutValid l m) :
    ∃ b : List (VecEvent J),
      RacerVector.redo s =
        { s with
          list := rmutStep l m
          len := (rmutStep l m).length
          index := (k : Int)
          stack := s.stack.set k b } := by
  have hkb : k < s.stack.length := (List.get?_eq_some.mp hstack).1
  have hguard : ¬ ¬ s.index < (s.stack.length : Int) - 1 := by omega
  have hidx1 : s.index + 1 = (k : Int) := by omega
  have hk : (s.index + 1).toNat = k := by omega
  refine ⟨[(RacerVector.redoChange { s with index := s.index + 1, isUndoable := false }
    (rmutEvt l m)).2], ?_⟩
  simp only [RacerVector.redo, if_neg hguard, hk, hstack]
  simp only [List.foldl_cons, List.foldl_nil]
  rw [redoChange_forward { s with index := s.index + 1, isUndoable := false } l m rfl
    hlist hlen hv]
  simp only [hidx1]
  rw [hu, List.nil_append]

theorem undo_phase {J : Type} [DecidableEq J] (ms : List (RMut J)) (hv : RMutsValid [] ms) :
    ∀ i, i ≤ ms.length →
      (RacerVector.undo)^[i] (applyRMuts (RacerVector.fresh J) ms) =
        { list := rmutSteps [] (ms.take (ms.length - i))
          len := (rmutSteps [] (ms.take (ms.length - i))).length
          stack := (rmutEvts [] ms).map (fun e => [e])
          index := ((ms.length - i : Nat) : Int) - 1
          inCompound := false
          isUndoable := true
          madeCompoundChange := false } := by
  intro i
  induction i with
  | zero =>
    intro _
    rw [Function.iterate_zero_apply]
    rw [applyRMuts_clean_spec ms (RacerVector.fresh J) rfl rfl (by simp [RacerVector.fresh])
      rfl hv]
    simp only [RacerVector.fresh, List.nil_append, Nat.sub_zero, List.take_length]
    have : (-1 : Int) + (ms.length : Int) = (ms.length : Int) - 1 := by ring
    rw [this]
  | succ i ih =>
    intro hi
    have hi' : i ≤ ms.length := by omega
    have hk : ms.length - i - 1 < ms.length := by omega
    rw [Function.iterate_succ_apply', ih hi']
    have hids : ms.length - i = (ms.length - i - 1) + 1 := by omega
    have hstep := rmutSteps_take_succ ms [] (ms.length - i - 1) hk
    have hstack : ((rmutEvts [] ms).map (fun e => [e])).get? (ms.length - i - 1) =
        some [rmutEvt (rmutSteps [] (ms.take (ms.length - i - 1)))
          (ms.get ⟨ms.length - i - 1, hk⟩)] := by
      rw [List.get?_map, rmutEvts_get? ms [] (ms.length - i - 1) hk]
      rfl
    have hlist2 : rmutSteps [] (ms.take (ms.length - i)) =
        rmutStep (rmutSteps [] (ms.take (ms.length - i - 1)))
          (ms.get ⟨ms.length - i - 1, hk⟩) := by
      conv_lhs => rw [hids]
      exact hstep
    rw [undo_singleton_top _ (rmutSteps [] (ms.take (ms.length - i - 1)))
      (ms.get ⟨ms.length - i - 1, hk⟩) (ms.length - i - 1) hstack (by
        show ((ms.length - i : Nat) : Int) - 1 = ((ms.length - i - 1 : Nat) : Int)
        omega) rfl hlist2 rfl
      (rmutsValid_get ms [] hv (ms.length - i - 1) hk)]
    have harith : ((ms.length - i : Nat) : Int) - 1 - 1 =
        ((ms.length - (i + 1) : Nat) : Int) - 1 := by omega
    have htk : ms.length - i - 1 = ms.length - (i + 1) := by omega
    simp only [harith, htk]

theorem redo_phase {J : Type} [DecidableEq J] (ms : List (RMut J)) (hv : RMutsValid [] ms) :
    ∀ (d j : Nat), j + d = ms.length → ∀ s : RVState J,
      s.list = rmutSteps [] (ms.take j) → s.len = s.list.length →
      s.index = (j : Int) - 1 → s.isUndoable = true →
      s.stack.length = ms.length →
      s.stack.drop j = ((rmutEvts [] ms).drop j).map (fun e => [e]) →
      ((RacerVector.redo)^[d] s).list = rmutSteps [] ms := by
  intro d
  induction d with
  | zero =>
    intro j hj s hlist _ _ _ _ _
    rw [Function.iterate_zero_apply, hlist]
    have : j = ms.length := by omega
    rw [this, List.take_length]
  | succ d ih =>
    intro j hj s hlist hlen hidx hu hslen hdrop
    have hjlt : j < ms.length := by omega
    have hevj := rmutEvts_get? ms [] j hjlt
    have hstack : s.stack.get? j = some [rmutEvt (rmutSteps [] (ms.take j))
        (ms.get ⟨j, hjlt⟩)] := by
      have h0 : s.stack.get? j = (s.stack.drop j).get? 0 := by
        rw [List.get?_drop]
        rfl
      rw [h0, hdrop, List.get?_map]
      have h1 : ((rmutEvts [] ms).drop j).get? 0 = (rmutEvts [] ms).get? j := by
        rw [List.get?_drop]
        rfl
      rw [h1, hevj]
      rfl
    obtain ⟨b, hredo⟩ := redo_singleton_next s (rmutSteps [] (ms.take j))
      (ms.get ⟨j, hjlt⟩) j hstack hidx hu hlist hlen
      (rmutsValid_get ms [] hv j hjlt)
    rw [Function.iterate_succ_apply, hredo]
    refine ih (j + 1) (by omega) _ ?_ rfl ?_ ?_ ?_ ?_
    · show rmutStep (rmutSteps [] (ms.take j)) (ms.get ⟨j, hjlt⟩) =
        rmutSteps [] (ms.take (j + 1))
      exact (rmutSteps_take_succ ms [] j hjlt).symm
    · show (j : Int) = ((j + 1 : Nat) : Int) - 1
      omega
    · exact hu
    · show (s.stack.set j b).length = ms.length
      rw [List.length_set]
      exact hslen
    · show (s.stack.set j b).drop (j + 1) =
        ((rmutEvts [] ms).drop (j + 1)).map (fun e => [e])
      rw [List.drop_set_of_lt _ _ (Nat.lt_succ_self j)]
      have h2 : s.stack.drop (j + 1) = (s.stack.drop j).drop 1 := by
        rw [List.drop_drop]
      have h3 : (rmutEvts [] ms).drop (j + 1) = ((rmutEvts [] ms).drop j).drop 1 := by
        rw [List.drop_drop]
      rw [h2, h3, hdrop]
      simp [List.map_drop]

/-- C2: starting from a fresh undo stack, for every sequence of `n` valid
single (non-compound) undoable mutations on a `RacerVector`, the contents
after the `i`-th `undo()` equal the contents the vector had after the
first `n - i` mutations, and calling `undo()` `n` times followed by
`redo()` `n` times restores exactly the contents the vector had after the
`n`-th mutation. -/
theorem c2_undo_redo_roundtrip {J : Type} [DecidableEq J] (ms : List (RMut J))
    (hv : RMutsValid [] ms) :
    (∀ i, i ≤ ms.length →
      ((RacerVector.undo)^[i] (applyRMuts (RacerVector.fresh J) ms)).list =
        rmutSteps [] (ms.take (ms.length - i))) ∧
    ((RacerVector.redo)^[ms.length] ((RacerVector.undo)^[ms.length]
        (applyRMuts (RacerVector.fresh J) ms))).list =
      (applyRMuts (RacerVector.fresh J) ms).list := by
  constructor
  · intro i hi
    rw [undo_phase ms hv i hi]
  · rw [undo_phase ms hv ms.length (le_refl _)]
    have hfin : (applyRMuts (RacerVector.fresh J) ms).list = rmutSteps [] ms := by
      rw [applyRMuts_clean_spec ms (RacerVector.fresh J) rfl rfl
        (by simp [RacerVector.fresh]) rfl hv]
      rfl
    rw [hfin]
    refine redo_phase ms hv ms.length 0 (by omega) _ ?_ rfl ?_ rfl ?_ ?_
    · show rmutSteps [] (ms.take (ms.length - ms.length)) = rmutSteps [] (ms.take 0)
      rw [Nat.sub_self]
    · show ((ms.length - ms.length : Nat) : Int) - 1 = ((0 : Nat) : Int) - 1
      rw [Nat.sub_self]
    · show ((rmutEvts [] ms).map (fun e => [e])).length = ms.length
      rw [List.length_map, rmutEvts_length]
    · show ((rmutEvts [] ms).map (fun e => [e])).drop 0 =
        ((rmutEvts [] ms).drop 0).map (fun e => [e])
      rfl

/-- Witness for `c2_undo_redo_roundtrip` on a concrete mutation sequence. -/
theorem c2_undo_redo_roundtrip_witness :
    RMutsValid ([] : List Nat) [RMut.push 1, RMut.push 2, RMut.removeAt 0] ∧
    ((∀ i, i ≤ ([RMut.push 1, RMut.push 2, RMut.removeAt 0] : List (RMut Nat)).length →
      ((RacerVector.undo)^[i] (applyRMuts (RacerVector.fresh Nat)
          [RMut.push 1, RMut.push 2, RMut.removeAt 0])).list =
        rmutSteps [] ([RMut.push 1, RMut.push 2, RMut.removeAt 0].take
          (([RMut.push 1, RMut.push 2, RMut.removeAt 0] : List (RMut Nat)).length - i))) ∧
    ((RacerVector.redo)^[([RMut.push 1, RMut.push 2, RMut.removeAt 0] :
        List (RMut Nat)).length]
      ((RacerVector.undo)^[([RMut.push 1, RMut.push 2, RMut.removeAt 0] :
          List (RMut Nat)).length]
        (applyRMuts (RacerVector.fresh Nat)
          [RMut.push 1, RMut.push 2, RMut.removeAt 0]))).list =
      (applyRMuts (RacerVector.fresh Nat)
        [RMut.push 1, RMut.push 2, RMut.removeAt 0]).list) :=
  ⟨by decide, c2_undo_redo_roundtrip [RMut.push 1, RMut.push 2, RMut.removeAt 0]
    (by decide)⟩

theorem set_append_length {α : Type} (l : List α) (a b : α) :
    (l ++ [a]).set l.length b = l ++ [b] := by
  induction l with
  | nil => rfl
  | cons x xs ih => simp [ih]

/-- C3: on the undo-capable vector, `beginCompoundOperation(); M1; M2;
endCompoundOperation()` records both mutations as one undo unit, so one
`undo()` reverts both; if the undo stack was empty beforehand, `canUndo`
is false after that `undo()`; and `endCompoundOperation()` advances the
cursor by one exactly when a change occurred during the compound
operation (an empty compound leaves the cursor unchanged). -/
theorem c3_compound_grouping {J : Type} [DecidableEq J] (s0 : RVState J) (m1 m2 : RMut J)
    (hu : s0.isUndoable = true) (hc : s0.inCompound = false)
    (hidx : s0.index = (s0.stack.length : Int) - 1) (hlen : s0.len = s0.list.length)
    (hv1 : RMutValid s0.list m1) (hv2 : RMutValid (rmutStep s0.list m1) m2) :
    (RacerVector.undo (RacerVector.endCompoundOperation (applyRMut (applyRMut
        (RacerVector.beginCompoundOperation s0 true) m1) m2))).list = s0.list ∧
    (RacerVector.endCompoundOperation (applyRMut (applyRMut
        (RacerVector.beginCompoundOperation s0 true) m1) m2)).index = s0.index + 1 ∧
    (s0.stack = [] → RacerVector.canUndo (RacerVector.undo
        (RacerVector.endCompoundOperation (applyRMut (applyRMut
          (RacerVector.beginCompoundOperation s0 true) m1) m2))) = false) ∧
    (RacerVector.endCompoundOperation
      (RacerVector.beginCompoundOperation s0 true)).index = s0.index := by
  have hbegin : RacerVector.beginCompoundOperation s0 true =
      { s0 with inCompound := true, isUndoable := true, madeCompoundChange := false } := rfl
  have hA : applyRMut (RacerVector.beginCompoundOperation s0 true) m1 =
      { s0 with
        list := rmutStep s0.list m1
        len := (rmutStep s0.list m1).length
        stack := s0.stack ++ [[rmutEvt s0.list m1]]
        inCompound := true
        isUndoable := true
        madeCompoundChange := true } := by
    have hrec := applyRMut_eq_record
      { s0 with inCompound := true, isUndoable := true, madeCompoundChange := false }
      m1 hlen hv1
    rw [hbegin]
    exact hrec.trans (onVectorChanged_compound_first _ _ rfl rfl rfl hidx)
  have hset : (s0.stack ++ [[rmutEvt s0.list m1]]).set
      ((s0.stack ++ [[rmutEvt s0.list m1]]).length - 1)
      ([rmutEvt s0.list m1] ++ [rmutEvt (rmutStep s0.list m1) m2]) =
      s0.stack ++ [[rmutEvt s0.list m1, rmutEvt (rmutStep s0.list m1) m2]] := by
    have h1 : (s0.stack ++ [[rmutEvt s0.list m1]]).length - 1 = s0.stack.length := by
      simp
    rw [h1, set_append_length]
    rfl
  have hB0 : applyRMut (applyRMut (RacerVector.beginCompoundOperation s0 true) m1) m2 =
      { s0 with
        list := rmutStep (rmutStep s0.list m1) m2
        len := (rmutStep (rmutStep s0.list m1) m2).length
        stack := (s0.stack ++ [[rmutEvt s0.list m1]]).set
          ((s0.stack ++ [[rmutEvt s0.list m1]]).length - 1)
          ([rmutEvt s0.list m1] ++ [rmutEvt (rmutStep s0.list m1) m2])
        inCompound := true
        isUndoable := true
        madeCompoundChange := true } := by
    rw [hA]
    have hrec2 := applyRMut_eq_record
      { s0 with
        list := rmutStep s0.list m1
        len := (rmutStep s0.list m1).length
        stack := s0.stack ++ [[rmutEvt s0.list m1]]
        inCompound := true
        isUndoable := true
        madeCompoundChange := true } m2 rfl hv2
    refine hrec2.trans (onVectorChanged_compound_next _ _ [rmutEvt s0.list m1]
      rfl rfl rfl ?_ ?_)
    · show s0.index + 1 + 1 = ((s0.stack ++ [[rmutEvt s0.list m1]]).length : Int)
      simp only [List.length_append, List.length_cons, List.length_nil]
      omega
    · show (s0.stack ++ [[rmutEvt s0.list m1]]).get?
        ((s0.stack ++ [[rmutEvt s0.list m1]]).length - 1) = some [rmutEvt s0.list m1]
      have h1 : (s0.stack ++ [[rmutEvt s0.list m1]]).length - 1 = s0.stack.length := by
        simp
      rw [h1]
      exact List.get?_concat_length s0.stack [rmutEvt s0.list m1]
  have hB : applyRMut (applyRMut (RacerVector.beginCompoundOperation s0 true) m1) m2 =
      { s0 with
        list := rmutStep (rmutStep s0.list m1) m2
        len := (rmutStep (rmutStep s0.list m1) m2).length
        stack := s0.stack ++ [[rmutEvt s0.list m1, rmutEvt (rmutStep s0.list m1) m2]]
        inCompound := true
        isUndoable := true
        madeCompoundChange := true } := by
    rw [hB0, hset]
  have hE : RacerVector.endCompoundOperation (applyRMut (applyRMut
      (RacerVector.beginCompoundOperation s0 true) m1) m2) =
      { s0 with
        list := rmutStep (rmutStep s0.list m1) m2
        len := (rmutStep (rmutStep s0.list m1) m2).length
        stack := s0.stack ++ [[rmutEvt s0.list m1, rmutEvt (rmutStep s0.list m1) m2]]
        index := s0.index + 1
        inCompound := false
        isUndoable := true
        madeCompoundChange := true } := by
    rw [hB]
    rfl
  have hguard : ¬ ¬ (0 : Int) ≤ s0.index + 1 := by omega
  have htoNat : (s0.index + 1).toNat = s0.stack.length := by omega
  have hget2 : (s0.stack ++ [[rmutEvt s0.list m1,
      rmutEvt (rmutStep s0.list m1) m2]]).get? s0.stack.length =
      some [rmutEvt s0.list m1, rmutEvt (rmutStep s0.list m1) m2] :=
    List.get?_concat_length s0.stack _
  have hundo : RacerVector.undo (RacerVector.endCompoundOperation (applyRMut (applyRMut
      (RacerVector.beginCompoundOperation s0 true) m1) m2)) =
      { s0 with
        list := s0.list
        len := s0.list.length
        stack := s0.stack ++ [[rmutEvt (rmutStep s0.list m1) m2, rmutEvt s0.list m1]]
        index := s0.index
        inCompound := false
        isUndoable := true
        madeCompoundChange := true } := by
    rw [hE]
    simp only [RacerVector.undo, if_neg hguard, htoNat, hget2]
    have hrev : ([rmutEvt s0.list m1, rmutEvt (rmutStep s0.list m1) m2]).reverse =
        [rmutEvt (rmutStep s0.list m1) m2, rmutEvt s0.list m1] := rfl
    rw [hrev]
    have hset2 : (s0.stack ++ [[rmutEvt s0.list m1,
        rmutEvt (rmutStep s0.list m1) m2]]).set s0.stack.length
        [rmutEvt (rmutStep s0.list m1) m2, rmutEvt s0.list m1] =
        s0.stack ++ [[rmutEvt (rmutStep s0.list m1) m2, rmutEvt s0.list m1]] :=
      set_append_length s0.stack _ _
    rw [hset2]
    simp only [List.foldl_cons, List.foldl_nil]
    rw [undoChange_inverts _ (rmutStep s0.list m1) m2 rfl rfl rfl hv2]
    rw [undoChange_inverts _ s0.list m1 rfl rfl rfl hv1]
    have harith : s0.index + 1 - 1 = s0.index := by ring
    simp only [harith]
  refine ⟨by rw [hundo], by rw [hE], ?_, rfl⟩
  intro hstk
  have hneg : s0.index = -1 := by
    rw [hstk] at hidx
    simpa using hidx
  rw [hundo]
  simp [RacerVector.canUndo, hneg]

/-- Witness for `c3_compound_grouping` at a concrete input. -/
theorem c3_compound_grouping_witness :
    ((RacerVector.fresh Nat).isUndoable = true ∧
      (RacerVector.fresh Nat).inCompound = false ∧
      (RacerVector.fresh Nat).index = (((RacerVector.fresh Nat).stack.length : Nat) : Int) - 1 ∧
      (RacerVector.fresh Nat).len = (RacerVector.fresh Nat).list.length ∧
      RMutValid (RacerVector.fresh Nat).list (RMut.push 1) ∧
      RMutValid (rmutStep (RacerVector.fresh Nat).list (RMut.push 1)) (RMut.push 2)) ∧
    ((RacerVector.undo (RacerVector.endCompoundOperation (applyRMut (applyRMut
        (RacerVector.beginCompoundOperation (RacerVector.fresh Nat) true)
        (RMut.push 1)) (RMut.push 2)))).list = (RacerVector.fresh Nat).list ∧
      (RacerVector.endCompoundOperation (applyRMut (applyRMut
        (RacerVector.beginCompoundOperation (RacerVector.fresh Nat) true)
        (RMut.push 1)) (RMut.push 2))).index = (RacerVector.fresh Nat).index + 1 ∧
      ((RacerVector.fresh Nat).stack = [] →
        RacerVector.canUndo (RacerVector.undo (RacerVector.endCompoundOperation
          (applyRMut (applyRMut (RacerVector.beginCompoundOperation
            (RacerVector.fresh Nat) true) (RMut.push 1)) (RMut.push 2)))) = false) ∧
      (RacerVector.endCompoundOperation (RacerVector.beginCompoundOperation
        (RacerVector.fresh Nat) true)).index = (RacerVector.fresh Nat).index) :=
  ⟨⟨rfl, rfl, by decide, rfl, trivial, trivial⟩,
    c3_compound_grouping (RacerVector.fresh Nat) (RMut.push 1) (RMut.push 2)
      rfl rfl (by decide) rfl trivial trivial⟩
